import Mathlib

/-!
Verification development for the POS product-management bulk import/export
engine (`ProductManagementPage`: `handleFileImport`, `handleExportProducts`)
and its per-row validation / reconciliation logic.

The definitions below are a shallow embedding of the TypeScript source:
JavaScript cell values become an inductive `CellVal`, JS numbers are
modelled as rationals (no claim depends on float rounding), `JSON.parse`
is modelled by an executable fuel-based parser over `Jval`, and the
stateful import loop becomes an explicit fold over a `PassState`.
-/

namespace POS

/-! ### Decimal digits

`digitChar d` is the ASCII digit for `d < 10`; `natToCharsCore` renders a
natural number in decimal (big-endian), fuel-based so that it reduces in
the kernel. -/

def digitChar (d : Nat) : Char := Char.ofNat (48 + d)

def charDigitVal (c : Char) : Nat := c.toNat - 48

def natToCharsCore (fuel n : Nat) : List Char :=
  match fuel with
  | 0 => []
  | fuel + 1 =>
    if n < 10 then [digitChar n]
    else natToCharsCore fuel (n / 10) ++ [digitChar (n % 10)]

def natToChars (n : Nat) : List Char := natToCharsCore (n + 1) n

/-- Decimal rendering of an integer (JS `String(n)` for integral numbers). -/
def intToChars (i : Int) : List Char :=
  if i < 0 then '-' :: natToChars i.natAbs else natToChars i.natAbs

/-- Value of a big-endian digit-character list, with accumulator. -/
def charsVal (a : Nat) (ds : List Char) : Nat :=
  ds.foldl (fun a c => a * 10 + charDigitVal c) a

/-! ### JavaScript numbers

Every number this program manipulates originates from decimal text (JSON
bodies, sheet cells, `parseInt`/`parseFloat`), and the import engine never
performs arithmetic on them beyond sign comparisons, so JS numbers are
modelled as decimal fixed-point values `m / 10 ^ e`.  `NaN` is modelled as
`Option.none` at use sites; infinities and float rounding are not
representable and no claim depends on them. -/

structure DecNum : Type where
  m : Int
  e : Nat
  deriving DecidableEq, Repr

/-- Canonical form: strip factors of ten shared by mantissa and exponent. -/
def DecNum.normAux : Int → Nat → DecNum
  | m, 0 => ⟨m, 0⟩
  | m, e + 1 => if Int.emod m 10 = 0 then DecNum.normAux (Int.ediv m 10) e else ⟨m, e + 1⟩

def DecNum.norm (d : DecNum) : DecNum := DecNum.normAux d.m d.e

/-- The value `m / 10 ^ e` is zero / positive / nonnegative iff `m` is. -/
def DecNum.isPos (d : DecNum) : Bool := decide (0 < d.m)

def DecNum.isNonneg (d : DecNum) : Bool := decide (0 ≤ d.m)

/-! ### JavaScript cell values

A cell of the imported sheet (one field of an `ImportRow`) is absent
(`Option.none`) or holds a string, number, boolean, or null. -/

inductive CellVal : Type
  | str (s : String)
  | num (q : DecNum)
  | boolV (b : Bool)
  | jsNull
  deriving DecidableEq, Repr

/-- JS truthiness of a value (`!!v`; the number `0` is falsy). -/
def CellVal.truthy : CellVal → Bool
  | .str s => decide (s ≠ "")
  | .num q => decide (q.m ≠ 0)
  | .boolV b => b
  | .jsNull => false

/-- JS truthiness of a possibly-absent field (`undefined` is falsy). -/
def truthyOpt : Option CellVal → Bool
  | none => false
  | some v => v.truthy

/-- JS loose equality to null (`v == null`): true for `null` and `undefined`. -/
def isNullish : Option CellVal → Bool
  | none => true
  | some .jsNull => true
  | some _ => false

/-- Decimal rendering of a number, matching JS `String(x)` on integers and
terminating decimals (the shortest decimal, via canonicalisation; extreme
magnitudes use exponent form in JS, which no claim exercises). -/
def jsNumChars (d : DecNum) : List Char :=
  let n := d.norm
  if n.e = 0 then intToChars n.m
  else
    let ip := n.m.natAbs / 10 ^ n.e
    let fr := n.m.natAbs % 10 ^ n.e
    let frDigits := natToChars fr
    (if n.m < 0 then ['-'] else []) ++ natToChars ip ++ '.' ::
      (List.replicate (n.e - frDigits.length) '0' ++ frDigits)

/-- JS `String(v)` coercion of a cell value. -/
def jsToString : CellVal → String
  | .str s => s
  | .num q => String.mk (jsNumChars q)
  | .boolV b => if b then "true" else "false"
  | .jsNull => "null"

/-- JS `String(v)` of a possibly-absent field (`String(undefined)`). -/
def cellStr : Option CellVal → String
  | some v => jsToString v
  | none => "undefined"

/-- ASCII whitespace skipping (JS also strips some Unicode whitespace;
claims only involve ASCII). -/
def skipWsChars (cs : List Char) : List Char := cs.dropWhile Char.isWhitespace

/-- JS `String.prototype.trim` (ASCII-faithful). -/
def jsTrim (s : String) : String :=
  String.mk (((skipWsChars s.data).reverse.dropWhile Char.isWhitespace).reverse)

/-- JS `String.prototype.toLowerCase` (ASCII-faithful; list-based so it
evaluates in the kernel). -/
def jsToLower (s : String) : String := String.mk (s.data.map Char.toLower)

/-- JS `s.split(',')`: split at every comma, keeping empty segments. -/
def splitCommaAux : List Char → List Char → List String
  | [], acc => [String.mk acc.reverse]
  | c :: rest, acc =>
    if c = ',' then String.mk acc.reverse :: splitCommaAux rest []
    else splitCommaAux rest (c :: acc)

def splitComma (s : String) : List String := splitCommaAux s.data []

/-- Optional leading sign of a numeric literal (`-` negates, `+` is
consumed and ignored). -/
def splitSign : List Char → Bool × List Char
  | '-' :: rest => (true, rest)
  | '+' :: rest => (false, rest)
  | cs => (false, cs)

/-- JS `parseInt(s, 10)`: skip whitespace, optional sign, longest run of
decimal digits; `none` models `NaN` (no digit found). -/
def parseIntJs (s : String) : Option Int :=
  let signed := splitSign (skipWsChars s.data)
  let ds := signed.2.takeWhile Char.isDigit
  if ds.isEmpty then none
  else some (if signed.1 then -(charsVal 0 ds : Int) else (charsVal 0 ds : Int))

/-- Build the decimal value `±(ip.fr) * 10 ^ ex` from digit characters. -/
def decToNum (sign : Bool) (ip fr : List Char) (ex : Int) : DecNum :=
  let mNat : Nat := charsVal 0 (ip ++ fr)
  let m0 : Int := if sign then -(mNat : Int) else (mNat : Int)
  let d : DecNum :=
    if 0 ≤ ex then ⟨m0 * (10 : Int) ^ ex.toNat, fr.length⟩
    else ⟨m0, fr.length + (-ex).toNat⟩
  d.norm

/-- JS `parseFloat(s)`: skip whitespace, optional sign, longest valid decimal
literal prefix (integer part, optional fraction, optional exponent); `none`
models `NaN`.  `Infinity` literals are not modelled (no claim exercises them). -/
def parseFloatStr (s : String) : Option DecNum :=
  let signed := splitSign (skipWsChars s.data)
  let ip := signed.2.takeWhile Char.isDigit
  let cs1 := signed.2.dropWhile Char.isDigit
  let frAnd : List Char × List Char :=
    match cs1 with
    | '.' :: r => (r.takeWhile Char.isDigit, r.dropWhile Char.isDigit)
    | _ => ([], cs1)
  if ip.isEmpty && frAnd.1.isEmpty then none
  else
    let expo : Int :=
      match frAnd.2 with
      | c :: r =>
        if c = 'e' || c = 'E' then
          match r with
          | '-' :: r2 => -(charsVal 0 (r2.takeWhile Char.isDigit) : Int)
          | '+' :: r2 => (charsVal 0 (r2.takeWhile Char.isDigit) : Int)
          | r2 => (charsVal 0 (r2.takeWhile Char.isDigit) : Int)
        else 0
      | [] => 0
    some (decToNum signed.1 ip frAnd.1 expo)

/-- JS `parseFloat` applied to a raw cell (JS coerces to string first;
for number cells the string round-trips to the same value). -/
def parseFloatCell : CellVal → Option DecNum
  | .num q => some q
  | .str s => parseFloatStr s
  | .boolV _ => none
  | .jsNull => none

/-! ### JSON values and `JSON.parse`

`Jval` is the JS value space reachable from `JSON.parse`; object field
lists keep insertion order, and property lookup takes the last binding
(as `JSON.parse` does for duplicate keys). -/

inductive Jval : Type
  | jstr (s : String)
  | jnum (q : DecNum)
  | jbool (b : Bool)
  | jnull
  | jarr (elems : List Jval)
  | jobj (fields : List (String × Jval))

/-- JS property access on a parsed object: the last binding wins. -/
def jobjGet (fs : List (String × Jval)) (k : String) : Option Jval :=
  fs.foldl (fun acc p => if p.1 = k then some p.2 else acc) none

/-- Simple JSON string escapes. -/
def escChar : Char → Option Char
  | '"' => some '"'
  | '\\' => some '\\'
  | '/' => some '/'
  | 'b' => some (Char.ofNat 8)
  | 'f' => some (Char.ofNat 12)
  | 'n' => some '\n'
  | 'r' => some '\r'
  | 't' => some '\t'
  | _ => none

def hexVal (c : Char) : Option Nat :=
  if '0' ≤ c && c ≤ '9' then some (c.toNat - 48)
  else if 'a' ≤ c && c ≤ 'f' then some (c.toNat - 87)
  else if 'A' ≤ c && c ≤ 'F' then some (c.toNat - 55)
  else none

/-- Parse the body of a JSON string literal (after the opening quote),
returning the decoded content and the input after the closing quote. -/
def parseStrBody : List Char → Option (String × List Char)
  | [] => none
  | c :: rest =>
    if c = '"' then some ("", rest)
    else if c = '\\' then
      match rest with
      | [] => none
      | e :: rest2 =>
        if e = 'u' then
          match rest2 with
          | h1 :: h2 :: h3 :: h4 :: rest3 =>
            match hexVal h1, hexVal h2, hexVal h3, hexVal h4 with
            | some a, some b, some cdig, some d =>
              (parseStrBody rest3).map (fun p =>
                (String.mk (Char.ofNat (((a * 16 + b) * 16 + cdig) * 16 + d) :: p.1.data), p.2))
            | _, _, _, _ => none
          | _ => none
        else
          match escChar e with
          | some d => (parseStrBody rest2).map (fun p => (String.mk (d :: p.1.data), p.2))
          | none => none
    else if c.toNat < 32 then none
    else (parseStrBody rest).map (fun p => (String.mk (c :: p.1.data), p.2))
termination_by structural cs => cs

/-- Parse a JSON number literal (strict JSON grammar: optional minus, no
leading zeros, optional fraction and exponent). -/
def splitMinus : List Char → Bool × List Char
  | '-' :: rest => (true, rest)
  | cs => (false, cs)

/-- Optional `.digits` fraction of a JSON number (at least one digit
required after the point). -/
def jsonFrac (cs : List Char) : Option (List Char × List Char) :=
  match cs with
  | c :: r =>
    if c = '.' then
      let fr := r.takeWhile Char.isDigit
      if fr.isEmpty then none else some (fr, r.dropWhile Char.isDigit)
    else some ([], cs)
  | [] => some ([], cs)

/-- Optional `e`/`E` exponent of a JSON number (sign allowed, at least one
digit required). -/
def jsonExpo (cs : List Char) : Option (Int × List Char) :=
  match cs with
  | c :: r =>
    if c = 'e' || c = 'E' then
      let signed := splitSign r
      let es := signed.2.takeWhile Char.isDigit
      if es.isEmpty then none
      else
        some (if signed.1 then -(charsVal 0 es : Int) else (charsVal 0 es : Int),
          signed.2.dropWhile Char.isDigit)
    else some (0, cs)
  | [] => some (0, cs)

def parseJsonNum (cs : List Char) : Option (DecNum × List Char) :=
  let signed := splitMinus cs
  let ip := signed.2.takeWhile Char.isDigit
  let cs1 := signed.2.dropWhile Char.isDigit
  if ip.isEmpty then none
  else if 1 < ip.length && ip.head? = some '0' then none
  else
    match jsonFrac cs1 with
    | none => none
    | some (fr, cs2) =>
      match jsonExpo cs2 with
      | none => none
      | some (e, cs3) => some (decToNum signed.1 ip fr e, cs3)

inductive PMode : Type
  | value
  | elems
  | fields

inductive PRes : Type
  | val (v : Jval)
  | list (vs : List Jval)
  | flds (fs : List (String × Jval))

/-- Fuel-based recursive-descent JSON parser.  `PMode.value` parses one
value, `PMode.elems` the elements of a non-empty array up to `]`, and
`PMode.fields` the members of a non-empty object up to `}`. -/
def parseCore : Nat → PMode → List Char → Option (PRes × List Char)
  | 0, _, _ => none
  | fuel + 1, .value, cs =>
    match skipWsChars cs with
    | [] => none
    | c :: rest =>
      if c = '"' then
        match parseStrBody rest with
        | some (s, r) => some (.val (.jstr s), r)
        | none => none
      else if c = '[' then
        match skipWsChars rest with
        | ']' :: r2 => some (.val (.jarr []), r2)
        | cs2 =>
          match parseCore fuel .elems cs2 with
          | some (.list vs, r2) => some (.val (.jarr vs), r2)
          | _ => none
      else if c = '\x7b' then
        match skipWsChars rest with
        | '\x7d' :: r2 => some (.val (.jobj []), r2)
        | cs2 =>
          match parseCore fuel .fields cs2 with
          | some (.flds fs, r2) => some (.val (.jobj fs), r2)
          | _ => none
      else if c = 't' then
        match rest with
        | 'r' :: 'u' :: 'e' :: r => some (.val (.jbool true), r)
        | _ => none
      else if c = 'f' then
        match rest with
        | 'a' :: 'l' :: 's' :: 'e' :: r => some (.val (.jbool false), r)
        | _ => none
      else if c = 'n' then
        match rest with
        | 'u' :: 'l' :: 'l' :: r => some (.val .jnull, r)
        | _ => none
      else
        match parseJsonNum (c :: rest) with
        | some (q, r) => some (.val (.jnum q), r)
        | none => none
  | fuel + 1, .elems, cs =>
    match parseCore fuel .value cs with
    | some (.val v, r) =>
      match skipWsChars r with
      | ',' :: r2 =>
        match parseCore fuel .elems r2 with
        | some (.list vs, r3) => some (.list (v :: vs), r3)
        | _ => none
      | ']' :: r2 => some (.list [v], r2)
      | _ => none
    | _ => none
  | fuel + 1, .fields, cs =>
    match skipWsChars cs with
    | '"' :: rest =>
      match parseStrBody rest with
      | some (k, r) =>
        match skipWsChars r with
        | ':' :: r2 =>
          match parseCore fuel .value r2 with
          | some (.val v, r3) =>
            match skipWsChars r3 with
            | ',' :: r4 =>
              match parseCore fuel .fields r4 with
              | some (.flds fs, r5) => some (.flds ((k, v) :: fs), r5)
              | _ => none
            | '\x7d' :: r4 => some (.flds [(k, v)], r4)
            | _ => none
          | _ => none
        | _ => none
      | none => none
    | _ => none

/-- Model of `JSON.parse`: parse one value and require only whitespace to
remain.  The fuel `s.length + 16` dominates the recursion depth of any
successful parse of `s`. -/
def jsonParseStr (s : String) : Option Jval :=
  match parseCore (s.length + 16) .value s.data with
  | some (.val v, r) => if (skipWsChars r).isEmpty then some v else none
  | _ => none

/-! ### Domain data model

Shapes of `Category`, `Manufacturer`, `SizeStock`, `Product` and
`ProductFormData` as used by `ProductManagementPage` and
`productService` (`types.ts` itself is not in the visible sources; the
fields are those read by the import/export code and listed in the spec's
data model). -/

structure Category : Type where
  id : String
  name : String
  deriving DecidableEq, Repr

structure Manufacturer : Type where
  id : String
  name : String
  deriving DecidableEq, Repr

structure SizeStock : Type where
  size : String
  stock : DecNum
  deriving DecidableEq, Repr

structure Product : Type where
  id : String
  title : String
  code : String
  price : DecNum
  categoryId : String
  manufacturerId : String
  categoryName : Option String
  manufacturerName : Option String
  totalStock : Option DecNum
  sizes : List SizeStock
  image : String
  isVisible : Bool
  deriving DecidableEq, Repr

/-- The payload sent to the product service; `sizes` is the serialized
JSON string, exactly as in the source (`ProductFormData`). -/
structure ProductFormData : Type where
  title : String
  code : String
  price : DecNum
  categoryId : String
  manufacturerId : String
  sizes : String
  image : String
  isVisible : Bool
  deriving DecidableEq, Repr

/-! ### Import rows

`Row` is one record from `XLSX.utils.sheet_to_json`: a field bag keyed by
column header; only the columns the import reads are modelled.  Absent
keys are `none`. -/

structure Row : Type where
  Title : Option CellVal := none
  Code : Option CellVal := none
  Price : Option CellVal := none
  Category : Option CellVal := none
  Manufacturer : Option CellVal := none
  ImageURL : Option CellVal := none
  SizesStockJSON : Option CellVal := none
  Sizes : Option CellVal := none
  Stocks : Option CellVal := none
  TotalStock : Option CellVal := none
  Stock : Option CellVal := none
  IsVisible : Option CellVal := none
  deriving DecidableEq, Repr

/-- JS `Map` built from a list of key/value pairs: later entries overwrite
earlier ones, lookup is `Map.get`. -/
def mapGet {α : Type} (l : List (String × α)) (k : String) : Option α :=
  l.foldl (fun acc p => if p.1 = k then some p.2 else acc) none

/-- `new Map(currentCategories.map(c => [c.name.toLowerCase(), c.id]))`. -/
def categoryMap (cats : List Category) : List (String × String) :=
  cats.map (fun c => (jsToLower c.name, c.id))

/-- `new Map(currentManufacturers.map(m => [m.name.toLowerCase(), m.id]))`. -/
def manufacturerMap (mans : List Manufacturer) : List (String × String) :=
  mans.map (fun m => (jsToLower m.name, m.id))

/-- `new Map(existingSystemProducts.map(p => [p.code.toLowerCase(), p]))`. -/
def productCodeMap (prods : List Product) : List (String × Product) :=
  prods.map (fun p => (jsToLower p.code, p))

/-! ### Rejection reasons

The source pushes plain strings into `errors`; here each pushed string is
the rendering of a structured `Reason`, so that theorems can match on the
kind of failure.  `Reason.render` reproduces the source text (the
`${jsonError}` detail of the JSON-parse failure message is
engine-dependent and abbreviated). -/

inductive Reason : Type
  | missingRequired (rowIdx : Nat)
  | categoryNotFound (rowIdx : Nat) (value : String)
  | manufacturerNotFound (rowIdx : Nat) (value : String)
  | invalidPrice (rowIdx : Nat) (value : String)
  | sizesJsonBadShape (rowIdx : Nat) (payload : String)
  | sizesJsonBadParse (rowIdx : Nat) (payload : String)
  | sizesStocksMismatch (rowIdx : Nat) (nSizes nStocks : Nat)
  | emptySizeName (rowIdx : Nat) (position : Nat)
  | stockNotANumber (rowIdx : Nat) (sizeName : String) (token : String)
  | stockNegative (rowIdx : Nat) (sizeName : String) (value : Int)
  | noSizeData (rowIdx : Nat)
  | serviceError (rowIdx : Nat) (code : String) (message : String)
  deriving DecidableEq, Repr

def Reason.render : Reason → String
  | .missingRequired i =>
    "Row " ++ toString i ++ ": Missing required fields (Title, Code, Price, Category, Manufacturer, Image URL)."
  | .categoryNotFound i v => "Row " ++ toString i ++ ": Category \"" ++ v ++ "\" not found."
  | .manufacturerNotFound i v => "Row " ++ toString i ++ ": Manufacturer \"" ++ v ++ "\" not found."
  | .invalidPrice i v => "Row " ++ toString i ++ ": Invalid Price \"" ++ v ++ "\". Must be a positive number."
  | .sizesJsonBadShape i p =>
    "Row " ++ toString i ++ ": 'SizesStockJSON' (\"" ++ p ++ "\") is not a valid array of \x7bsize: string, stock: number (>=0)\x7d."
  | .sizesJsonBadParse i p =>
    "Row " ++ toString i ++ ": 'SizesStockJSON' (\"" ++ p ++ "\") is not valid JSON. SyntaxError"
  | .sizesStocksMismatch i n k =>
    "Row " ++ toString i ++ ": Mismatch between number of sizes (" ++ toString n ++
      ") in \"Sizes\" and stock values (" ++ toString k ++ ") in \"Stocks\"."
  | .emptySizeName i pos =>
    "Row " ++ toString i ++ ": Empty size name found at position " ++ toString pos ++ " in \"Sizes\" column."
  | .stockNotANumber i name tok =>
    "Row " ++ toString i ++ ": Stock value for size \"" ++ name ++ "\" is not a valid number (\"" ++ tok ++ "\")."
  | .stockNegative i name v =>
    "Row " ++ toString i ++ ": Stock value for size \"" ++ name ++ "\" (" ++ toString v ++ ") cannot be negative."
  | .noSizeData i =>
    "Row " ++ toString i ++ ": Missing 'SizesStockJSON' or 'Sizes'/'Stocks' columns, or valid 'TotalStock'/'Stock'. Product will have no stock/sizes defined."
  | .serviceError i code msg =>
    "Row " ++ toString i ++ " (Code: " ++ code ++ "): Error processing - " ++ msg

/-! ### Size serialization (`JSON.stringify` of a `SizeStock[]`)

String escaping is not modelled (theorems about round-trips restrict to
size names that require no escapes); numbers render as in `String(x)`. -/

def sizeEntryChars (entry : SizeStock) : List Char :=
  ("\x7b\"size\":\"".data) ++ entry.size.data ++ ("\",\"stock\":".data) ++
    jsNumChars entry.stock ++ ['\x7d']

def sizeEntriesChars : List SizeStock → List Char
  | [] => []
  | [entry] => sizeEntryChars entry
  | entry :: rest => sizeEntryChars entry ++ ',' :: sizeEntriesChars rest

def stringifySizes (l : List SizeStock) : String :=
  String.mk ('[' :: (sizeEntriesChars l ++ [']']))

/-! ### Per-row validation (`handleFileImport`, lines 294-389)

`rowValidate` is the pure part of one loop iteration: it either rejects
the row with the single reason the source pushes before `continue`, or
produces the `ProductFormData` for the mutation call, together with the
optional non-fatal "no size data" warning the fallback branch pushes. -/

/-- Required-field gate (line 294): JS-falsy `Title`, `Code`, `Category`,
`Manufacturer`, `Image URL`, or nullish `Price`. -/
def requiredMissing (row : Row) : Bool :=
  !truthyOpt row.Title || !truthyOpt row.Code || isNullish row.Price ||
    !truthyOpt row.Category || !truthyOpt row.Manufacturer || !truthyOpt row.ImageURL

/-- Name resolution (lines 299-308): case-insensitive map lookup, and the
`if (!categoryId)` truthiness test also rejects an empty-string id. -/
def resolveRef (m : List (String × String)) (cell : Option CellVal) : Option String :=
  match mapGet m (jsToLower (cellStr cell)) with
  | some i => if i = "" then none else some i
  | none => none

def parseFloatOpt : Option CellVal → Option DecNum
  | some v => parseFloatCell v
  | none => none

/-- Element check of `parsed.every(s => typeof s.size === 'string' &&
typeof s.stock === 'number' && s.stock >= 0)`.  (A `null` element makes
the JS property access throw, landing in the same rejection path with the
parse-failure message; here it simply fails the check.) -/
def sizeEntryOk (v : Jval) : Bool :=
  match v with
  | .jobj fs =>
    (match jobjGet fs "size" with
     | some (.jstr _) => true
     | _ => false) &&
    (match jobjGet fs "stock" with
     | some (.jnum q) => q.isNonneg
     | _ => false)
  | _ => false

/-- The positional zip loop of strategy 2 (lines 344-363): stops at the
first failing position, in check order empty-name, then `NaN`, then
negative. -/
def zipSizes (rowIdx : Nat) : Nat → List String → List (String × Option Int) →
    Except Reason (List SizeStock)
  | _, [], _ => Except.ok []
  | _, _ :: _, [] => Except.ok []
  | j, name :: ns, p :: ss =>
    if name = "" then Except.error (Reason.emptySizeName rowIdx (j + 1))
    else
      match p.2 with
      | none => Except.error (Reason.stockNotANumber rowIdx name (jsTrim p.1))
      | some v =>
        if v < 0 then Except.error (Reason.stockNegative rowIdx name v)
        else
          match zipSizes rowIdx (j + 1) ns ss with
          | Except.ok rest => Except.ok (⟨name, ⟨v, 0⟩⟩ :: rest)
          | Except.error r => Except.error r

inductive SizeOutcome : Type
  | rejectRow (r : Reason)
  | okSizes (warn : Option Reason) (sizesString : String)
  deriving DecidableEq, Repr

/-- Strategy 1 (lines 321-332): validate the structured `SizesStockJSON`
payload; on success `sizesString` is the trimmed payload itself. -/
def stage1Res (rowIdx : Nat) (payload : String) : SizeOutcome :=
  match jsonParseStr payload with
  | none => .rejectRow (.sizesJsonBadParse rowIdx payload)
  | some (.jarr xs) =>
    if xs.all sizeEntryOk then .okSizes none payload
    else .rejectRow (.sizesJsonBadShape rowIdx payload)
  | some _ => .rejectRow (.sizesJsonBadShape rowIdx payload)

/-- Strategy 2 (lines 333-368): split both comma lists, zip positionally. -/
def stage2Res (rowIdx : Nat) (sizesListFromRow stocksListFromRow : String) : SizeOutcome :=
  let sizeNamesArray := (splitComma sizesListFromRow).map jsTrim
  let stockToks := splitComma stocksListFromRow
  let stockValuesArray := stockToks.map (fun t => parseIntJs (jsTrim t))
  if sizeNamesArray.length ≠ stockValuesArray.length then
    .rejectRow (.sizesStocksMismatch rowIdx sizeNamesArray.length stockValuesArray.length)
  else
    match zipSizes rowIdx 0 sizeNamesArray (stockToks.zip stockValuesArray) with
    | .error r => .rejectRow r
    | .ok arr => .okSizes none (stringifySizes arr)

/-- Strategy 3 and fallback (lines 369-377): aggregate `TotalStock` (or
`Stock`), else the non-fatal empty-list warning. -/
def stage3Res (rowIdx : Nat) (row : Row) : SizeOutcome :=
  let totalStockFromRow : Option (Option Int) :=
    match row.TotalStock with
    | some v => some (parseIntJs (jsToString v))
    | none =>
      match row.Stock with
      | some v => some (parseIntJs (jsToString v))
      | none => none
  match totalStockFromRow with
  | some (some n) =>
    if 0 ≤ n then .okSizes none (stringifySizes [⟨"One Size", ⟨n, 0⟩⟩])
    else .okSizes (some (.noSizeData rowIdx)) "[]"
  | some none => .okSizes (some (.noSizeData rowIdx)) "[]"
  | none => .okSizes (some (.noSizeData rowIdx)) "[]"

/-- Size/stock resolution (lines 316-377): the three strategies in source
order — structured `SizesStockJSON` payload, parallel `Sizes`/`Stocks`
comma lists, then aggregate `TotalStock`/`Stock`, with the non-fatal
empty-list fallback. -/
def sizesStage (rowIdx : Nat) (row : Row) : SizeOutcome :=
  let sizesStockJSONFromRow := if truthyOpt row.SizesStockJSON then jsTrim (cellStr row.SizesStockJSON) else ""
  let sizesListFromRow := if truthyOpt row.Sizes then jsTrim (cellStr row.Sizes) else ""
  let stocksListFromRow := if truthyOpt row.Stocks then jsTrim (cellStr row.Stocks) else ""
  if sizesStockJSONFromRow ≠ "" then stage1Res rowIdx sizesStockJSONFromRow
  else if sizesListFromRow ≠ "" && stocksListFromRow ≠ "" then
    stage2Res rowIdx sizesListFromRow stocksListFromRow
  else stage3Res rowIdx row

/-- Visibility parsing (line 388): a truthy cell is string-coerced and
matched case-insensitively against "yes"/"true"; a falsy or absent cell
defaults to `true`. -/
def parseVisible (cell : Option CellVal) : Bool :=
  if truthyOpt cell then
    let s := jsToLower (cellStr cell)
    s = "yes" || s = "true"
  else true

inductive RowCheck : Type
  | reject (r : Reason)
  | ok (warn : Option Reason) (pd : ProductFormData)
  deriving DecidableEq, Repr

/-- One loop iteration of `handleFileImport` up to the mutation call:
required-field gate, category/manufacturer resolution, price parsing,
size-strategy resolution, and construction of `productData`. -/
def rowValidate (cmap mmap : List (String × String)) (rowIdx : Nat) (row : Row) : RowCheck :=
  if requiredMissing row then .reject (.missingRequired rowIdx)
  else
    match resolveRef cmap row.Category with
    | none => .reject (.categoryNotFound rowIdx (cellStr row.Category))
    | some categoryId =>
      match resolveRef mmap row.Manufacturer with
      | none => .reject (.manufacturerNotFound rowIdx (cellStr row.Manufacturer))
      | some manufacturerId =>
        match parseFloatOpt row.Price with
        | none => .reject (.invalidPrice rowIdx (cellStr row.Price))
        | some price =>
          if !price.isPos then .reject (.invalidPrice rowIdx (cellStr row.Price))
          else
            match sizesStage rowIdx row with
            | .rejectRow r => .reject r
            | .okSizes warn sizesString =>
              .ok warn
                { title := cellStr row.Title
                  code := cellStr row.Code
                  price := price
                  categoryId := categoryId
                  manufacturerId := manufacturerId
                  sizes := sizesString
                  image := cellStr row.ImageURL
                  isVisible := parseVisible row.IsVisible }

/-! ### Reconciliation pass (lines 282-417) -/

inductive MutationCall : Type
  | insert (pd : ProductFormData)
  | update (targetId : String) (pd : ProductFormData)
  deriving DecidableEq, Repr

/-- The remote product service as an oracle: `none` means the mutation
succeeds, `some msg` means it throws with message `msg`. -/
abbrev Service : Type := MutationCall → Option String

/-- The always-succeeding service. -/
def svcOK : Service := fun _ => none

/-- Mutable state of the import loop (`importedCount`, `updatedCount`,
`errors`), plus the trace of mutation calls issued — observability
instrumentation absent from the source but determined by it. -/
structure PassState : Type where
  importedCount : Nat
  updatedCount : Nat
  errors : List Reason
  calls : List MutationCall
  deriving DecidableEq, Repr

def PassState.init : PassState := ⟨0, 0, [], []⟩

/-- One full loop iteration (lines 290-404): validate, look the code up in
the pre-built `productCodeMap`, issue update or insert, count on success,
record a row-scoped service error on failure. -/
def processRow (cmap mmap : List (String × String)) (pmap : List (String × Product))
    (svc : Service) (st : PassState) (rowIdx : Nat) (row : Row) : PassState :=
  match rowValidate cmap mmap rowIdx row with
  | .reject r => { st with errors := st.errors ++ [r] }
  | .ok warn pd =>
    let st1 := { st with errors := st.errors ++ warn.toList }
    match mapGet pmap (jsToLower pd.code) with
    | some existing =>
      let st2 := { st1 with calls := st1.calls ++ [MutationCall.update existing.id pd] }
      match svc (MutationCall.update existing.id pd) with
      | none => { st2 with updatedCount := st2.updatedCount + 1 }
      | some msg => { st2 with errors := st2.errors ++ [.serviceError rowIdx pd.code msg] }
    | none =>
      let st2 := { st1 with calls := st1.calls ++ [MutationCall.insert pd] }
      match svc (MutationCall.insert pd) with
      | none => { st2 with importedCount := st2.importedCount + 1 }
      | some msg => { st2 with errors := st2.errors ++ [.serviceError rowIdx pd.code msg] }

/-- The row loop; `rowIdx` starts at 2 (1-based with a header row). -/
def runRows (cmap mmap : List (String × String)) (pmap : List (String × Product))
    (svc : Service) : PassState → Nat → List Row → PassState
  | st, _, [] => st
  | st, i, r :: rs => runRows cmap mmap pmap svc (processRow cmap mmap pmap svc st i r) (i + 1) rs

inductive ReportKind : Type
  | emptyInput
  | completedWithErrors
  | successReport
  | nothingImported
  deriving DecidableEq, Repr

structure ImportReport : Type where
  kind : ReportKind
  importedCount : Nat
  updatedCount : Nat
  errors : List Reason
  deriving DecidableEq, Repr

/-- The whole import pass: the empty-sheet early return (lines 268-273),
the maps built once before the loop (lines 282-284), the loop, and the
summary policy (lines 406-417): any recorded error is reported through
`setActionError` ("Import completed with errors"), else a non-empty
summary through `setSuccessMessage`, else the "No products were imported
or updated" error. -/
def importPass (cats : List Category) (mans : List Manufacturer) (prods : List Product)
    (svc : Service) (rows : List Row) : ImportReport :=
  if rows.isEmpty then ⟨.emptyInput, 0, 0, []⟩
  else
    let st := runRows (categoryMap cats) (manufacturerMap mans) (productCodeMap prods)
      svc PassState.init 2 rows
    let kind :=
      if !st.errors.isEmpty then ReportKind.completedWithErrors
      else if 0 < st.importedCount || 0 < st.updatedCount then ReportKind.successReport
      else ReportKind.nothingImported
    ⟨kind, st.importedCount, st.updatedCount, st.errors⟩

/-! ### Export projection (`handleExportProducts`, lines 219-235)

One sheet row per product; the `ID` column is written but never read back
by the import, so it is not part of `Row`.  `yes`/`no` are the localized
strings `t('common.yes')`/`t('common.no')`. -/

def orFallback (o : Option String) (d : String) : String :=
  match o with
  | some s => if s = "" then d else s
  | none => d

def exportRow (yes no : String) (p : Product) : Row :=
  { Title := some (.str p.title)
    Code := some (.str p.code)
    Price := some (.num p.price)
    Category := some (.str (orFallback p.categoryName p.categoryId))
    Manufacturer := some (.str (orFallback p.manufacturerName p.manufacturerId))
    ImageURL := some (.str p.image)
    SizesStockJSON := some (.str (stringifySizes p.sizes))
    TotalStock := some (.num (p.totalStock.getD ⟨0, 0⟩))
    IsVisible := some (.str (if p.isVisible then yes else no))
    Sizes := none
    Stocks := none
    Stock := none }

/-! ### Decimal digit rendering lemmas -/
theorem digitChar_isDigit {d : Nat} (h : d < 10) : (digitChar d).isDigit = true := by
  interval_cases d <;> rfl

theorem charDigitVal_digitChar {d : Nat} (h : d < 10) : charDigitVal (digitChar d) = d := by
  interval_cases d <;> rfl

theorem charsVal_append_singleton (a : Nat) (xs : List Char) (c : Char) :
    charsVal a (xs ++ [c]) = charsVal a xs * 10 + charDigitVal c := by
  simp [charsVal, List.foldl_append]

theorem natToCharsCore_spec (fuel : Nat) : ∀ n a, n < fuel →
    charsVal a (natToCharsCore fuel n) =
      a * 10 ^ (natToCharsCore fuel n).length + n ∧
    ∀ c ∈ natToCharsCore fuel n, c.isDigit := by
  induction fuel with
  | zero => intro n a h; omega
  | succ fuel ih =>
    intro n a h
    rw [natToCharsCore]
    by_cases h10 : n < 10
    · simp only [if_pos h10]
      refine ⟨?_, ?_⟩
      · rw [show charsVal a [digitChar n] = a * 10 + charDigitVal (digitChar n) from rfl,
          charDigitVal_digitChar h10]
        simp
      · intro c hc
        simp only [List.mem_singleton] at hc
        subst hc
        exact digitChar_isDigit h10
    · simp only [if_neg h10]
      have hlt : n / 10 < fuel := by omega
      obtain ⟨hv, hd⟩ := ih (n / 10) a hlt
      have hm10 : n % 10 < 10 := Nat.mod_lt _ (by norm_num)
      refine ⟨?_, ?_⟩
      · rw [charsVal_append_singleton, charDigitVal_digitChar hm10, hv]
        rw [List.length_append, List.length_singleton, pow_succ]
        have hdm : n / 10 * 10 + n % 10 = n := by omega
        calc (a * 10 ^ (natToCharsCore fuel (n / 10)).length + n / 10) * 10 + n % 10
            = a * (10 ^ (natToCharsCore fuel (n / 10)).length * 10)
              + (n / 10 * 10 + n % 10) := by ring
          _ = a * (10 ^ (natToCharsCore fuel (n / 10)).length * 10) + n := by rw [hdm]
      · intro c hc
        rcases List.mem_append.mp hc with h1 | h1
        · exact hd c h1
        · simp only [List.mem_singleton] at h1
          subst h1
          exact digitChar_isDigit hm10

/-! ### Side conditions used by the round-trip theorems -/

/-- A character that `JSON.stringify` emits verbatim inside a string
literal (no escape sequence needed). -/
def jsonSafeChar (c : Char) : Bool := decide (c ≠ '"' ∧ c ≠ '\\' ∧ 32 ≤ c.toNat)

def jsonSafeStr (s : String) : Bool := s.data.all jsonSafeChar

/-- The parse of one serialized size entry. -/
def entryJval (entry : SizeStock) : Jval :=
  .jobj [("size", .jstr entry.size), ("stock", .jnum entry.stock)]

/-- Size lists whose serialization re-parses verbatim: names need no JSON
escapes, stocks are canonical nonnegative integers. -/
def GoodSizes (l : List SizeStock) : Prop :=
  ∀ entry ∈ l, jsonSafeStr entry.size = true ∧ entry.stock.e = 0 ∧ 0 ≤ entry.stock.m

/-- A catalog product whose exported sheet row passes every validation of
the importer: non-empty (truthy) title, code, image; positive price;
category and manufacturer names that resolve in the maps the import
builds; and a well-formed size list. -/
def GoodProduct (cats : List Category) (mans : List Manufacturer) (p : Product) : Prop :=
  p.title ≠ "" ∧ p.code ≠ "" ∧ p.image ≠ "" ∧ p.price.isPos = true ∧
    orFallback p.categoryName p.categoryId ≠ "" ∧
    orFallback p.manufacturerName p.manufacturerId ≠ "" ∧
    (∃ cid, resolveRef (categoryMap cats) (some (.str (orFallback p.categoryName p.categoryId))) = some cid) ∧
    (∃ mid, resolveRef (manufacturerMap mans) (some (.str (orFallback p.manufacturerName p.manufacturerId))) = some mid) ∧
    GoodSizes p.sizes

/-- Declarative description of a failing position of strategy 2: the
trimmed name at `j` is empty, or the stock token at `j` parses to `NaN`
or to a negative integer. -/
def badPos (names : List String) (stocks : List (Option Int)) (j : Nat) : Bool :=
  match names[j]?, stocks[j]? with
  | some name, some sv =>
    name = "" || sv.isNone ||
      (match sv with
       | some v => decide (v < 0)
       | none => false)
  | _, _ => false

/-! ### Helper lemmas: scanning over appended lists -/

theorem takeWhile_append_all {p : Char → Bool} {xs : List Char} (ys : List Char)
    (h : ∀ x ∈ xs, p x = true) :
    (xs ++ ys).takeWhile p = xs ++ ys.takeWhile p := by
  induction xs with
  | nil => simp
  | cons a l ih =>
    simp only [List.cons_append, List.takeWhile_cons, h a (by simp)]
    rw [ih (fun x hx => h x (by simp [hx]))]
    simp

theorem dropWhile_append_all {p : Char → Bool} {xs : List Char} (ys : List Char)
    (h : ∀ x ∈ xs, p x = true) :
    (xs ++ ys).dropWhile p = ys.dropWhile p := by
  induction xs with
  | nil => simp
  | cons a l ih =>
    simp only [List.cons_append, List.dropWhile_cons, h a (by simp)]
    exact ih (fun x hx => h x (by simp [hx]))

theorem takeWhile_head_false {p : Char → Bool} : ∀ {ys : List Char},
    (∀ c, ys.head? = some c → p c = false) → ys.takeWhile p = []
  | [], _ => rfl
  | c :: l, h => by simp [List.takeWhile_cons, h c rfl]

theorem dropWhile_head_false {p : Char → Bool} : ∀ {ys : List Char},
    (∀ c, ys.head? = some c → p c = false) → ys.dropWhile p = ys
  | [], _ => rfl
  | c :: l, h => by simp [List.dropWhile_cons, h c rfl]

/-! ### Decimal rendering facts -/

theorem charsVal_natToChars (n : Nat) : charsVal 0 (natToChars n) = n := by
  have := (natToCharsCore_spec (n + 1) n 0 (by omega)).1
  simpa using this

theorem natToChars_digits (n : Nat) : ∀ c ∈ natToChars n, c.isDigit = true :=
  (natToCharsCore_spec (n + 1) n 0 (by omega)).2

theorem natToCharsCore_ne_nil (fuel n : Nat) (h : n < fuel) : natToCharsCore fuel n ≠ [] := by
  match fuel with
  | fuel + 1 =>
    rw [natToCharsCore]
    by_cases h10 : n < 10
    · simp [h10]
    · simp only [if_neg h10]
      intro hcontra
      exact absurd (List.append_eq_nil.mp hcontra).2 (by simp)

theorem natToChars_ne_nil (n : Nat) : natToChars n ≠ [] :=
  natToCharsCore_ne_nil (n + 1) n (by omega)

theorem natToCharsCore_head_ne_zero (fuel : Nat) : ∀ n, n < fuel → 0 < n →
    ∀ c, (natToCharsCore fuel n).head? = some c → c ≠ '0' := by
  induction fuel with
  | zero => intro n h; omega
  | succ fuel ih =>
    intro n h hn c hc
    rw [natToCharsCore] at hc
    by_cases h10 : n < 10
    · simp only [if_pos h10, List.head?_cons, Option.some_inj] at hc
      subst hc
      interval_cases n <;> simp_all <;> intro hcontra <;> exact absurd hcontra (by decide)
    · simp only [if_neg h10] at hc
      have hne := natToCharsCore_ne_nil fuel (n / 10) (by omega)
      rw [List.head?_append_of_ne_nil _ hne] at hc
      exact ih (n / 10) (by omega) (by omega) c hc

theorem natToChars_head_ne_zero {n : Nat} (hn : 0 < n) :
    ∀ c, (natToChars n).head? = some c → c ≠ '0' :=
  natToCharsCore_head_ne_zero (n + 1) n (by omega) hn

theorem natToChars_lt_ten {n : Nat} (h : n < 10) : natToChars n = [digitChar n] := by
  rw [natToChars, natToCharsCore]
  simp [h]

/-! ### Character class facts -/

theorem isDigit_ne {c : Char} (h : c.isDigit = true) :
    c ≠ '-' ∧ c ≠ '+' ∧ c ≠ '.' ∧ c ≠ 'e' ∧ c ≠ 'E' ∧ c ≠ '"' ∧ c ≠ '\\' ∧
    c ≠ '[' ∧ c ≠ '\x7b' ∧ c ≠ 't' ∧ c ≠ 'f' ∧ c ≠ 'n' := by
  refine ⟨?_, ?_, ?_, ?_, ?_, ?_, ?_, ?_, ?_, ?_, ?_, ?_⟩ <;>
    (intro heq; subst heq; exact absurd h (by decide))

theorem isDigit_not_ws {c : Char} (h : c.isDigit = true) : c.isWhitespace = false := by
  by_contra hw
  have hw' : c.isWhitespace = true := by
    cases hx : c.isWhitespace
    · exact absurd hx hw
    · rfl
  simp only [Char.isWhitespace, Bool.or_eq_true, decide_eq_true_eq] at hw'
  rcases hw' with ((h1 | h1) | h1) | h1 <;> (subst h1; exact absurd h (by decide))

theorem splitSign_cons {c : Char} (cs : List Char) (h1 : c ≠ '-') (h2 : c ≠ '+') :
    splitSign (c :: cs) = (false, c :: cs) := by
  rw [splitSign.eq_def]
  split
  · rename_i heq
    injection heq with hc
    exact absurd hc h1
  · rename_i heq
    injection heq with hc
    exact absurd hc h2
  · rfl

theorem splitMinus_cons {c : Char} (cs : List Char) (h1 : c ≠ '-') :
    splitMinus (c :: cs) = (false, c :: cs) := by
  rw [splitMinus.eq_def]
  split
  · rename_i heq
    injection heq with hc
    exact absurd hc h1
  · rfl

/-! ### Round-trips through the JSON parser -/

theorem jsonFrac_no_dot {cs : List Char} (h : ∀ c, cs.head? = some c → c ≠ '.') :
    jsonFrac cs = some ([], cs) := by
  cases cs with
  | nil => rfl
  | cons c r =>
    have hc := h c rfl
    rw [jsonFrac]
    rw [if_neg hc]

theorem jsonExpo_no_e {cs : List Char} (h : ∀ c, cs.head? = some c → c ≠ 'e' ∧ c ≠ 'E') :
    jsonExpo cs = some (0, cs) := by
  cases cs with
  | nil => rfl
  | cons c r =>
    obtain ⟨he, hE⟩ := h c rfl
    rw [jsonExpo]
    rw [if_neg (by simp [he, hE])]

theorem parseStrBody_roundtrip : ∀ (ds rest : List Char),
    (∀ c ∈ ds, jsonSafeChar c = true) →
    parseStrBody (ds ++ '"' :: rest) = some (String.mk ds, rest)
  | [], rest, _ => by
    rw [List.nil_append, parseStrBody.eq_def]
    rfl
  | c :: ds, rest, h => by
    have hc := of_decide_eq_true (h c (by simp))
    obtain ⟨hq, hbs, hctl⟩ := hc
    have ih := parseStrBody_roundtrip ds rest (fun x hx => h x (by simp [hx]))
    rw [List.cons_append, parseStrBody.eq_def]
    simp only [if_neg hq, if_neg hbs, if_neg (by omega : ¬c.toNat < 32)]
    rw [ih]
    rfl

theorem decToNum_natChars (ds : List Char) :
    decToNum false ds [] 0 = ⟨(charsVal 0 ds : Int), 0⟩ := by
  unfold decToNum
  simp [DecNum.norm, DecNum.normAux]

theorem parseJsonNum_nat (n : Nat) (rest : List Char)
    (hrest : ∀ c, rest.head? = some c → c.isDigit = false ∧ c ≠ '.' ∧ c ≠ 'e' ∧ c ≠ 'E') :
    parseJsonNum (natToChars n ++ rest) = some (⟨(n : Int), 0⟩, rest) := by
  obtain ⟨d, ds, hnd⟩ : ∃ d ds, natToChars n = d :: ds := by
    cases hx : natToChars n with
    | nil => exact absurd hx (natToChars_ne_nil n)
    | cons d ds => exact ⟨d, ds, rfl⟩
  have hddig : d.isDigit = true := by
    apply natToChars_digits n
    rw [hnd]
    simp
  have hsplit : splitMinus (natToChars n ++ rest) = (false, natToChars n ++ rest) := by
    rw [hnd, List.cons_append, splitMinus_cons _ (isDigit_ne hddig).1, ← List.cons_append, ← hnd]
  have htake : (natToChars n ++ rest).takeWhile Char.isDigit = natToChars n := by
    rw [takeWhile_append_all rest (natToChars_digits n),
      takeWhile_head_false (fun c hc => (hrest c hc).1), List.append_nil]
  have hdrop : (natToChars n ++ rest).dropWhile Char.isDigit = rest := by
    rw [dropWhile_append_all rest (natToChars_digits n),
      dropWhile_head_false (fun c hc => (hrest c hc).1)]
  unfold parseJsonNum
  rw [hsplit]
  simp only [htake, hdrop]
  rw [if_neg (by simp [natToChars_ne_nil n])]
  have hlead : ¬(1 < (natToChars n).length ∧ (natToChars n).head? = some '0') := by
    rintro ⟨hlen, hhead⟩
    rcases Nat.lt_or_ge n 10 with h10 | h10
    · rw [natToChars_lt_ten h10] at hlen
      simp at hlen
    · exact natToChars_head_ne_zero (by omega) '0' hhead rfl
  rw [if_neg (by simpa using hlead)]
  rw [jsonFrac_no_dot (fun c hc => ((hrest c hc).2.1))]
  show (match jsonExpo rest with
    | none => none
    | some (e, cs3) => some (decToNum false (natToChars n) [] e, cs3)) =
      some (⟨(n : Int), 0⟩, rest)
  rw [jsonExpo_no_e (fun c hc => ⟨(hrest c hc).2.2.1, (hrest c hc).2.2.2⟩)]
  show some (decToNum false (natToChars n) [] 0, rest) = some (⟨(n : Int), 0⟩, rest)
  rw [decToNum_natChars, charsVal_natToChars]

/-! ### Parsing a serialized size list back -/

theorem skipWs_cons {c : Char} (cs : List Char) (h : c.isWhitespace = false) :
    skipWsChars (c :: cs) = c :: cs := by
  simp [skipWsChars, List.dropWhile_cons, h]

theorem jsNumChars_e0 (m : Int) : jsNumChars ⟨m, 0⟩ = intToChars m := rfl

theorem jsNumChars_nonneg_e0 {m : Int} (hm : 0 ≤ m) :
    jsNumChars ⟨m, 0⟩ = natToChars m.toNat := by
  rw [jsNumChars_e0, intToChars, if_neg (by omega)]
  congr 1
  omega

theorem sizeEntryChars_append (entry : SizeStock) (rest : List Char) :
    sizeEntryChars entry ++ rest =
      '\x7b' :: '"' :: 's' :: 'i' :: 'z' :: 'e' :: '"' :: ':' :: '"' ::
        (entry.size.data ++ '"' :: ',' :: '"' :: 's' :: 't' :: 'o' :: 'c' :: 'k' :: '"' :: ':' ::
          (jsNumChars entry.stock ++ '\x7d' :: rest)) := by
  simp only [sizeEntryChars, List.append_assoc]
  rfl

theorem parseCore_succ_value (fuel : Nat) (cs : List Char) :
    parseCore (fuel + 1) .value cs =
      (match skipWsChars cs with
      | [] => none
      | c :: rest =>
        if c = '"' then
          match parseStrBody rest with
          | some (s, r) => some (PRes.val (Jval.jstr s), r)
          | none => none
        else if c = '[' then
          match skipWsChars rest with
          | ']' :: r2 => some (PRes.val (Jval.jarr []), r2)
          | cs2 =>
            match parseCore fuel PMode.elems cs2 with
            | some (PRes.list vs, r2) => some (PRes.val (Jval.jarr vs), r2)
            | _ => none
        else if c = '\x7b' then
          match skipWsChars rest with
          | '\x7d' :: r2 => some (PRes.val (Jval.jobj []), r2)
          | cs2 =>
            match parseCore fuel PMode.fields cs2 with
            | some (PRes.flds fs, r2) => some (PRes.val (Jval.jobj fs), r2)
            | _ => none
        else if c = 't' then
          match rest with
          | 'r' :: 'u' :: 'e' :: r => some (PRes.val (Jval.jbool true), r)
          | _ => none
        else if c = 'f' then
          match rest with
          | 'a' :: 'l' :: 's' :: 'e' :: r => some (PRes.val (Jval.jbool false), r)
          | _ => none
        else if c = 'n' then
          match rest with
          | 'u' :: 'l' :: 'l' :: r => some (PRes.val Jval.jnull, r)
          | _ => none
        else
          match parseJsonNum (c :: rest) with
          | some (q, r) => some (PRes.val (Jval.jnum q), r)
          | none => none) := rfl

theorem parseCore_succ_elems (fuel : Nat) (cs : List Char) :
    parseCore (fuel + 1) .elems cs =
      (match parseCore fuel PMode.value cs with
      | some (PRes.val v, r) =>
        match skipWsChars r with
        | ',' :: r2 =>
          match parseCore fuel PMode.elems r2 with
          | some (PRes.list vs, r3) => some (PRes.list (v :: vs), r3)
          | _ => none
        | ']' :: r2 => some (PRes.list [v], r2)
        | _ => none
      | _ => none) := rfl

theorem parseCore_succ_fields (fuel : Nat) (cs : List Char) :
    parseCore (fuel + 1) .fields cs =
      (match skipWsChars cs with
      | '"' :: rest =>
        match parseStrBody rest with
        | some (k, r) =>
          match skipWsChars r with
          | ':' :: r2 =>
            match parseCore fuel PMode.value r2 with
            | some (PRes.val v, r3) =>
              match skipWsChars r3 with
              | ',' :: r4 =>
                match parseCore fuel PMode.fields r4 with
                | some (PRes.flds fs, r5) => some (PRes.flds ((k, v) :: fs), r5)
                | _ => none
              | '\x7d' :: r4 => some (PRes.flds [(k, v)], r4)
              | _ => none
            | _ => none
          | _ => none
        | none => none
      | _ => none) := rfl

theorem parseCore_value_str (f : Nat) (s : String) (rest : List Char)
    (hsafe : jsonSafeStr s = true) :
    parseCore (f + 1) .value ('"' :: (s.data ++ '"' :: rest)) = some (PRes.val (Jval.jstr s), rest) := by
  rw [parseCore_succ_value, skipWs_cons _ (by decide)]
  show (match parseStrBody (s.data ++ '"' :: rest) with
    | some (t, r) => some (PRes.val (Jval.jstr t), r)
    | none => none) = some (PRes.val (Jval.jstr s), rest)
  rw [parseStrBody_roundtrip s.data rest (by simpa [jsonSafeStr, List.all_eq_true] using hsafe)]

theorem parseCore_value_num (f : Nat) (m : Int) (hm : 0 ≤ m) (rest : List Char)
    (hrest : ∀ c, rest.head? = some c →
      c.isDigit = false ∧ c ≠ '.' ∧ c ≠ 'e' ∧ c ≠ 'E') :
    parseCore (f + 1) .value (natToChars m.toNat ++ rest) =
      some (PRes.val (Jval.jnum ⟨m, 0⟩), rest) := by
  obtain ⟨d, ds, hnd⟩ : ∃ d ds, natToChars m.toNat = d :: ds := by
    cases hx : natToChars m.toNat with
    | nil => exact absurd hx (natToChars_ne_nil _)
    | cons d ds => exact ⟨d, ds, rfl⟩
  have hddig : d.isDigit = true := by
    apply natToChars_digits
    rw [hnd]
    simp
  obtain ⟨hd1, hd2, hd3, hd4, hd5, hd6, hd7, hd8, hd9, hd10, hd11, hd12⟩ := isDigit_ne hddig
  rw [parseCore_succ_value, hnd, List.cons_append, skipWs_cons _ (isDigit_not_ws hddig)]
  simp only [if_neg hd6, if_neg hd8, if_neg hd9, if_neg hd10, if_neg hd11, if_neg hd12]
  rw [← List.cons_append, ← hnd, parseJsonNum_nat m.toNat rest hrest]
  rw [Int.toNat_of_nonneg hm]

theorem parseCore_fields (g : Nat) (entry : SizeStock) (rest : List Char)
    (hsafe : jsonSafeStr entry.size = true) (he0 : entry.stock.e = 0)
    (hm : 0 ≤ entry.stock.m) :
    parseCore (g + 3) .fields
      ('"' :: 's' :: 'i' :: 'z' :: 'e' :: '"' :: ':' :: '"' ::
        (entry.size.data ++ '"' :: ',' :: '"' :: 's' :: 't' :: 'o' :: 'c' :: 'k' :: '"' :: ':' ::
          (jsNumChars entry.stock ++ '\x7d' :: rest))) =
      some (PRes.flds [("size", Jval.jstr entry.size), ("stock", Jval.jnum entry.stock)], rest) := by
  have hstock : entry.stock = ⟨entry.stock.m, 0⟩ := by
    cases hs : entry.stock
    simp only [hs] at he0 ⊢
    simp [he0]
  have hsecond : parseCore (g + 2) .fields
      ('"' :: 's' :: 't' :: 'o' :: 'c' :: 'k' :: '"' :: ':' ::
        (jsNumChars entry.stock ++ '\x7d' :: rest)) =
      some (PRes.flds [("stock", Jval.jnum entry.stock)], rest) := by
    rw [show (g + 2) = (g + 1) + 1 from rfl, parseCore_succ_fields, skipWs_cons _ (by decide)]
    show (match parseStrBody ('s' :: 't' :: 'o' :: 'c' :: 'k' :: '"' :: ':' ::
        (jsNumChars entry.stock ++ '\x7d' :: rest)) with
      | some (k, r) =>
        match skipWsChars r with
        | ':' :: r2 =>
          match parseCore (g + 1) PMode.value r2 with
          | some (PRes.val v, r3) =>
            match skipWsChars r3 with
            | ',' :: r4 =>
              match parseCore (g + 1) PMode.fields r4 with
              | some (PRes.flds fs, r5) => some (PRes.flds ((k, v) :: fs), r5)
              | _ => none
            | '\x7d' :: r4 => some (PRes.flds [(k, v)], r4)
            | _ => none
          | _ => none
        | _ => none
      | none => none) = some (PRes.flds [("stock", Jval.jnum entry.stock)], rest)
    rw [show ('s' :: 't' :: 'o' :: 'c' :: 'k' :: '"' :: ':' ::
        (jsNumChars entry.stock ++ '\x7d' :: rest)) =
        (['s', 't', 'o', 'c', 'k'] ++ '"' :: (':' :: (jsNumChars entry.stock ++ '\x7d' :: rest))) from rfl]
    rw [parseStrBody_roundtrip ['s', 't', 'o', 'c', 'k'] _ (by decide)]
    show (match parseCore (g + 1) PMode.value (jsNumChars entry.stock ++ '\x7d' :: rest) with
      | some (PRes.val v, r3) =>
        match skipWsChars r3 with
        | ',' :: r4 =>
          match parseCore (g + 1) PMode.fields r4 with
          | some (PRes.flds fs, r5) => some (PRes.flds (("stock", v) :: fs), r5)
          | _ => none
        | '\x7d' :: r4 => some (PRes.flds [("stock", v)], r4)
        | _ => none
      | _ => none) = some (PRes.flds [("stock", Jval.jnum entry.stock)], rest)
    rw [hstock, jsNumChars_nonneg_e0 hm, show (g + 1) = g + 1 from rfl]
    rw [show parseCore (g + 1) PMode.value (natToChars entry.stock.m.toNat ++ '\x7d' :: rest) =
        some (PRes.val (Jval.jnum ⟨entry.stock.m, 0⟩), '\x7d' :: rest) from
      parseCore_value_num g entry.stock.m hm ('\x7d' :: rest)
        (by intro c hc; injection hc with hc; subst hc
            exact ⟨by decide, by decide, by decide, by decide⟩)]
    rfl
  rw [show (g + 3) = (g + 2) + 1 from rfl, parseCore_succ_fields, skipWs_cons _ (by decide)]
  show (match parseStrBody ('s' :: 'i' :: 'z' :: 'e' :: '"' :: ':' :: '"' ::
      (entry.size.data ++ '"' :: ',' :: '"' :: 's' :: 't' :: 'o' :: 'c' :: 'k' :: '"' :: ':' ::
        (jsNumChars entry.stock ++ '\x7d' :: rest))) with
    | some (k, r) =>
      match skipWsChars r with
      | ':' :: r2 =>
        match parseCore (g + 2) PMode.value r2 with
        | some (PRes.val v, r3) =>
          match skipWsChars r3 with
          | ',' :: r4 =>
            match parseCore (g + 2) PMode.fields r4 with
            | some (PRes.flds fs, r5) => some (PRes.flds ((k, v) :: fs), r5)
            | _ => none
          | '\x7d' :: r4 => some (PRes.flds [(k, v)], r4)
          | _ => none
        | _ => none
      | _ => none
    | none => none) =
      some (PRes.flds [("size", Jval.jstr entry.size), ("stock", Jval.jnum entry.stock)], rest)
  rw [show ('s' :: 'i' :: 'z' :: 'e' :: '"' :: ':' :: '"' ::
      (entry.size.data ++ '"' :: ',' :: '"' :: 's' :: 't' :: 'o' :: 'c' :: 'k' :: '"' :: ':' ::
        (jsNumChars entry.stock ++ '\x7d' :: rest))) =
      (['s', 'i', 'z', 'e'] ++ '"' :: (':' :: '"' :: (entry.size.data ++ '"' :: ',' :: '"' :: 's' :: 't' :: 'o' :: 'c' :: 'k' :: '"' :: ':' ::
        (jsNumChars entry.stock ++ '\x7d' :: rest)))) from rfl]
  rw [parseStrBody_roundtrip ['s', 'i', 'z', 'e'] _ (by decide)]
  show (match parseCore (g + 2) PMode.value ('"' ::
      (entry.size.data ++ '"' :: ',' :: '"' :: 's' :: 't' :: 'o' :: 'c' :: 'k' :: '"' :: ':' ::
        (jsNumChars entry.stock ++ '\x7d' :: rest))) with
    | some (PRes.val v, r3) =>
      match skipWsChars r3 with
      | ',' :: r4 =>
        match parseCore (g + 2) PMode.fields r4 with
        | some (PRes.flds fs, r5) => some (PRes.flds (("size", v) :: fs), r5)
        | _ => none
      | '\x7d' :: r4 => some (PRes.flds [("size", v)], r4)
      | _ => none
    | _ => none) =
      some (PRes.flds [("size", Jval.jstr entry.size), ("stock", Jval.jnum entry.stock)], rest)
  rw [show (g + 2) = (g + 1) + 1 from rfl,
    parseCore_value_str (g + 1) entry.size
      (',' :: '"' :: 's' :: 't' :: 'o' :: 'c' :: 'k' :: '"' :: ':' ::
        (jsNumChars entry.stock ++ '\x7d' :: rest)) hsafe]
  show (match parseCore (g + 2) PMode.fields
      ('"' :: 's' :: 't' :: 'o' :: 'c' :: 'k' :: '"' :: ':' ::
        (jsNumChars entry.stock ++ '\x7d' :: rest)) with
    | some (PRes.flds fs, r5) => some (PRes.flds (("size", Jval.jstr entry.size) :: fs), r5)
    | _ => none) =
      some (PRes.flds [("size", Jval.jstr entry.size), ("stock", Jval.jnum entry.stock)], rest)
  rw [hsecond]

theorem parseCore_entry (f : Nat) (entry : SizeStock) (rest : List Char)
    (hsafe : jsonSafeStr entry.size = true) (he0 : entry.stock.e = 0)
    (hm : 0 ≤ entry.stock.m) (hf : 4 ≤ f) :
    parseCore f .value (sizeEntryChars entry ++ rest) =
      some (PRes.val (entryJval entry), rest) := by
  obtain ⟨g, rfl⟩ : ∃ g, f = g + 4 := ⟨f - 4, by omega⟩
  rw [sizeEntryChars_append, show g + 4 = (g + 3) + 1 from rfl, parseCore_succ_value,
    skipWs_cons _ (by decide)]
  show (match skipWsChars ('"' :: 's' :: 'i' :: 'z' :: 'e' :: '"' :: ':' :: '"' ::
      (entry.size.data ++ '"' :: ',' :: '"' :: 's' :: 't' :: 'o' :: 'c' :: 'k' :: '"' :: ':' ::
        (jsNumChars entry.stock ++ '\x7d' :: rest))) with
    | '\x7d' :: r2 => some (PRes.val (Jval.jobj []), r2)
    | cs2 =>
      match parseCore (g + 3) PMode.fields cs2 with
      | some (PRes.flds fs, r2) => some (PRes.val (Jval.jobj fs), r2)
      | _ => none) = some (PRes.val (entryJval entry), rest)
  rw [skipWs_cons _ (by decide)]
  show (match parseCore (g + 3) PMode.fields ('"' :: 's' :: 'i' :: 'z' :: 'e' :: '"' :: ':' :: '"' ::
      (entry.size.data ++ '"' :: ',' :: '"' :: 's' :: 't' :: 'o' :: 'c' :: 'k' :: '"' :: ':' ::
        (jsNumChars entry.stock ++ '\x7d' :: rest))) with
    | some (PRes.flds fs, r2) => some (PRes.val (Jval.jobj fs), r2)
    | _ => none) = some (PRes.val (entryJval entry), rest)
  rw [parseCore_fields g entry rest hsafe he0 hm]
  rfl

theorem parseCore_elems_sizes : ∀ (l : List SizeStock) (g : Nat) (rest : List Char),
    GoodSizes l → l ≠ [] → l.length + 4 ≤ g →
    parseCore g .elems (sizeEntriesChars l ++ ']' :: rest) =
      some (PRes.list (l.map entryJval), rest)
  | [], _, _, _, hne, _ => absurd rfl hne
  | [e], g, rest, hgood, _, hg => by
    obtain ⟨g', rfl⟩ : ∃ k, g = k + 1 := ⟨g - 1, by omega⟩
    rw [parseCore_succ_elems, show sizeEntriesChars [e] = sizeEntryChars e from rfl]
    obtain ⟨he1, he2, he3⟩ := hgood e (by simp)
    rw [parseCore_entry g' e (']' :: rest) he1 he2 he3 (by simp at hg; omega)]
    rfl
  | e :: e2 :: tl, g, rest, hgood, _, hg => by
    obtain ⟨g', rfl⟩ : ∃ k, g = k + 1 := ⟨g - 1, by omega⟩
    rw [parseCore_succ_elems,
      show sizeEntriesChars (e :: e2 :: tl) = sizeEntryChars e ++ ',' :: sizeEntriesChars (e2 :: tl) from rfl,
      List.append_assoc, List.cons_append]
    obtain ⟨he1, he2, he3⟩ := hgood e (by simp)
    rw [parseCore_entry g' e _ he1 he2 he3 (by simp at hg; omega)]
    show (match skipWsChars (',' :: (sizeEntriesChars (e2 :: tl) ++ ']' :: rest)) with
      | ',' :: r2 =>
        match parseCore g' PMode.elems r2 with
        | some (PRes.list vs, r3) => some (PRes.list (entryJval e :: vs), r3)
        | _ => none
      | ']' :: r2 => some (PRes.list [entryJval e], r2)
      | _ => none) = some (PRes.list ((e :: e2 :: tl).map entryJval), rest)
    rw [skipWs_cons _ (by decide)]
    show (match parseCore g' PMode.elems (sizeEntriesChars (e2 :: tl) ++ ']' :: rest) with
      | some (PRes.list vs, r3) => some (PRes.list (entryJval e :: vs), r3)
      | _ => none) = some (PRes.list ((e :: e2 :: tl).map entryJval), rest)
    rw [parseCore_elems_sizes (e2 :: tl) g' rest (fun x hx => hgood x (by simp at hx ⊢; tauto))
      (by simp) (by simp at hg ⊢; omega)]
    rfl

theorem sizeEntryChars_len (entry : SizeStock) : 1 ≤ (sizeEntryChars entry).length := by
  simp [sizeEntryChars]

theorem sizeEntriesChars_len : ∀ l : List SizeStock, l.length ≤ (sizeEntriesChars l).length
  | [] => by simp [sizeEntriesChars]
  | [e] => by
    have := sizeEntryChars_len e
    simpa [sizeEntriesChars] using this
  | e :: e2 :: tl => by
    have ih := sizeEntriesChars_len (e2 :: tl)
    have h1 := sizeEntryChars_len e
    show (e :: e2 :: tl).length ≤ (sizeEntryChars e ++ ',' :: sizeEntriesChars (e2 :: tl)).length
    simp only [List.length_append, List.length_cons] at ih ⊢
    omega

/-- Re-parsing a serialized well-formed size list succeeds and yields the
entries verbatim: the formal core of round-trip compatibility. -/
theorem jsonParseStr_stringify (l : List SizeStock) (h : GoodSizes l) :
    jsonParseStr (stringifySizes l) = some (.jarr (l.map entryJval)) := by
  cases l with
  | nil => rfl
  | cons e tl =>
    have hhead : ∃ Z, sizeEntriesChars (e :: tl) ++ [']'] = '\x7b' :: Z := by
      cases tl with
      | nil =>
        exact ⟨_, by rw [show sizeEntriesChars [e] = sizeEntryChars e from rfl,
          sizeEntryChars_append]⟩
      | cons e2 tl2 =>
        exact ⟨_, by rw [show sizeEntriesChars (e :: e2 :: tl2) =
            sizeEntryChars e ++ ',' :: sizeEntriesChars (e2 :: tl2) from rfl,
          List.append_assoc, List.cons_append, sizeEntryChars_append]⟩
    obtain ⟨Z, hZ⟩ := hhead
    have hvalue : parseCore ((sizeEntriesChars (e :: tl)).length + 18) .value
        ('[' :: (sizeEntriesChars (e :: tl) ++ [']'])) =
        some (PRes.val (Jval.jarr ((e :: tl).map entryJval)), []) := by
      rw [show (sizeEntriesChars (e :: tl)).length + 18 =
        ((sizeEntriesChars (e :: tl)).length + 17) + 1 from rfl]
      rw [parseCore_succ_value, skipWs_cons _ (by decide)]
      show (match skipWsChars (sizeEntriesChars (e :: tl) ++ [']']) with
        | ']' :: r2 => some (PRes.val (Jval.jarr []), r2)
        | cs2 =>
          match parseCore ((sizeEntriesChars (e :: tl)).length + 17) PMode.elems cs2 with
          | some (PRes.list vs, r2) => some (PRes.val (Jval.jarr vs), r2)
          | _ => none) = some (PRes.val (Jval.jarr ((e :: tl).map entryJval)), [])
      rw [hZ, skipWs_cons _ (by decide)]
      show (match parseCore ((sizeEntriesChars (e :: tl)).length + 17) PMode.elems ('\x7b' :: Z) with
        | some (PRes.list vs, r2) => some (PRes.val (Jval.jarr vs), r2)
        | _ => none) = some (PRes.val (Jval.jarr ((e :: tl).map entryJval)), [])
      rw [← hZ, show sizeEntriesChars (e :: tl) ++ [']'] =
        sizeEntriesChars (e :: tl) ++ ']' :: [] from rfl]
      rw [parseCore_elems_sizes (e :: tl) _ [] h (by simp)
        (by have h5 := sizeEntriesChars_len (e :: tl); omega)]
    have hlen : (stringifySizes (e :: tl)).length + 16 =
        (sizeEntriesChars (e :: tl)).length + 18 := by
      show ('[' :: (sizeEntriesChars (e :: tl) ++ [']'])).length + 16 = _
      simp [List.length_append]
    unfold jsonParseStr
    rw [hlen]
    show (match parseCore ((sizeEntriesChars (e :: tl)).length + 18) PMode.value
        ('[' :: (sizeEntriesChars (e :: tl) ++ [']'])) with
      | some (PRes.val v, r) => if (skipWsChars r).isEmpty then some v else none
      | _ => none) = some (Jval.jarr ((e :: tl).map entryJval))
    rw [hvalue]
    rfl

/-! ### From the JSON round-trip to the validation stage -/

theorem sizeEntryOk_entryJval {entry : SizeStock} (hm : 0 ≤ entry.stock.m) :
    sizeEntryOk (entryJval entry) = true := by
  simp [sizeEntryOk, entryJval, jobjGet, DecNum.isNonneg, hm]

theorem stringifySizes_ne_empty (l : List SizeStock) : stringifySizes l ≠ "" := by
  intro h
  have h2 := congrArg String.data h
  simp [stringifySizes] at h2

theorem jsTrim_stringify (l : List SizeStock) :
    jsTrim (stringifySizes l) = stringifySizes l := by
  unfold jsTrim stringifySizes
  rw [show (String.mk ('[' :: (sizeEntriesChars l ++ [']']))).data =
    '[' :: (sizeEntriesChars l ++ [']']) from rfl]
  rw [skipWs_cons _ (by decide)]
  rw [show ('[' :: (sizeEntriesChars l ++ [']'])).reverse =
    ']' :: ((sizeEntriesChars l).reverse ++ ['[']) from by simp]
  rw [List.dropWhile_cons]
  rw [if_neg (by decide)]
  rw [show (']' :: ((sizeEntriesChars l).reverse ++ ['['])).reverse =
    ('[' :: (sizeEntriesChars l ++ [']'])) from by simp]

theorem mapGet_isSome_aux {α : Type} (l : List (String × α)) (k : String) :
    ∀ acc : Option α, (acc.isSome = true ∨ ∃ x ∈ l, x.1 = k) →
    (l.foldl (fun acc p => if p.1 = k then some p.2 else acc) acc).isSome = true := by
  induction l with
  | nil =>
    rintro acc (h | ⟨x, hx, _⟩)
    · exact h
    · exact absurd hx (List.not_mem_nil x)
  | cons p l ih =>
    rintro acc (h | ⟨x, hx, hk⟩)
    · refine ih _ (Or.inl ?_)
      by_cases hp : p.1 = k
      · simp [hp]
      · simpa [hp] using h
    · rcases List.mem_cons.mp hx with rfl | hx'
      · refine ih _ (Or.inl ?_)
        simp [hk]
      · exact ih _ (Or.inr ⟨x, hx', hk⟩)

theorem mapGet_isSome_of_mem {α : Type} {l : List (String × α)} {k : String}
    (h : ∃ x ∈ l, x.1 = k) : ∃ v, mapGet l k = some v := by
  have := mapGet_isSome_aux l k none (Or.inr h)
  cases hx : mapGet l k with
  | none => rw [mapGet] at hx; rw [hx] at this; simp at this
  | some v => exact ⟨v, rfl⟩

/-- The `ProductFormData` built from an exported product when it re-passes
validation. -/
def exportPd (yes no : String) (cid mid : String) (p : Product) : ProductFormData :=
  { title := p.title
    code := p.code
    price := p.price
    categoryId := cid
    manufacturerId := mid
    sizes := stringifySizes p.sizes
    image := p.image
    isVisible := parseVisible (some (.str (if p.isVisible then yes else no))) }

theorem sizesStage_exportRow (yes no : String) (p : Product) (i : Nat)
    (hs : GoodSizes p.sizes) :
    sizesStage i (exportRow yes no p) = .okSizes none (stringifySizes p.sizes) := by
  rw [sizesStage]
  have htruthy : truthyOpt (exportRow yes no p).SizesStockJSON = true := by
    simp [exportRow, truthyOpt, CellVal.truthy, stringifySizes_ne_empty]
  rw [if_pos htruthy]
  have hcell : cellStr (exportRow yes no p).SizesStockJSON = stringifySizes p.sizes := rfl
  rw [hcell, jsTrim_stringify]
  rw [if_pos (stringifySizes_ne_empty p.sizes)]
  rw [stage1Res, jsonParseStr_stringify p.sizes hs]
  have hall : (List.map entryJval p.sizes).all sizeEntryOk = true := by
    rw [List.all_eq_true]
    intro v hv
    rw [List.mem_map] at hv
    obtain ⟨entry, hmem, rfl⟩ := hv
    exact sizeEntryOk_entryJval (hs entry hmem).2.2
  simp [hall]

theorem rowValidate_exportRow (cats : List Category) (mans : List Manufacturer)
    (yes no : String) (p : Product) (i : Nat) (hp : GoodProduct cats mans p) :
    ∃ cid mid, resolveRef (categoryMap cats) (exportRow yes no p).Category = some cid ∧
      resolveRef (manufacturerMap mans) (exportRow yes no p).Manufacturer = some mid ∧
      rowValidate (categoryMap cats) (manufacturerMap mans) i (exportRow yes no p) =
        .ok none (exportPd yes no cid mid p) := by
  obtain ⟨ht, hc, him, hpp, hcat, hman, ⟨cid, hcid⟩, ⟨mid, hmid⟩, hs⟩ := hp
  refine ⟨cid, mid, hcid, hmid, ?_⟩
  rw [rowValidate]
  have hreq : requiredMissing (exportRow yes no p) = false := by
    simp [requiredMissing, exportRow, truthyOpt, CellVal.truthy, isNullish, ht, hc, him, hcat, hman]
  rw [if_neg (by simp [hreq])]
  have hcid' : resolveRef (categoryMap cats) (exportRow yes no p).Category = some cid := hcid
  have hmid' : resolveRef (manufacturerMap mans) (exportRow yes no p).Manufacturer = some mid := hmid
  have hprice : parseFloatOpt (exportRow yes no p).Price = some p.price := rfl
  simp only [hcid', hmid', hprice, hpp, Bool.not_true, sizesStage_exportRow yes no p i hs]
  rfl

theorem runRows_exportRows (cats : List Category) (mans : List Manufacturer)
    (pmap : List (String × Product)) (yes no : String) :
    ∀ (ps : List Product) (st : PassState) (i : Nat),
    (∀ p ∈ ps, GoodProduct cats mans p) →
    (∀ p ∈ ps, ∃ q, mapGet pmap (jsToLower p.code) = some q) →
    (runRows (categoryMap cats) (manufacturerMap mans) pmap svcOK st i
        (ps.map (exportRow yes no))).importedCount = st.importedCount ∧
    (runRows (categoryMap cats) (manufacturerMap mans) pmap svcOK st i
        (ps.map (exportRow yes no))).updatedCount = st.updatedCount + ps.length ∧
    (runRows (categoryMap cats) (manufacturerMap mans) pmap svcOK st i
        (ps.map (exportRow yes no))).errors = st.errors := by
  intro ps
  induction ps with
  | nil => exact fun st i _ _ => ⟨rfl, by simp [runRows], rfl⟩
  | cons p tl ih =>
    intro st i hgood hmap
    obtain ⟨cid, mid, hcid, hmid, hval⟩ :=
      rowValidate_exportRow cats mans yes no p i (hgood p (by simp))
    obtain ⟨q, hq⟩ := hmap p (by simp)
    have hq' : mapGet pmap (jsToLower (exportPd yes no cid mid p).code) = some q := hq
    have hstep : processRow (categoryMap cats) (manufacturerMap mans) pmap svcOK st i
        (exportRow yes no p) =
        { importedCount := st.importedCount
          updatedCount := st.updatedCount + 1
          errors := st.errors ++ []
          calls := st.calls ++ [MutationCall.update q.id (exportPd yes no cid mid p)] } := by
      rw [processRow, hval]
      simp only [hq']
      rfl
    rw [List.map_cons, runRows, hstep]
    obtain ⟨ih1, ih2, ih3⟩ := ih
      { importedCount := st.importedCount
        updatedCount := st.updatedCount + 1
        errors := st.errors ++ []
        calls := st.calls ++ [MutationCall.update q.id (exportPd yes no cid mid p)] }
      (i + 1) (fun x hx => hgood x (by simp [hx])) (fun x hx => hmap x (by simp [hx]))
    refine ⟨by rw [ih1], by rw [ih2]; simp; omega, by rw [ih3]; simp⟩

/-! ### Claim theorems -/

/-- Catalog used to falsify the unconditional round-trip claim: one
existing product whose stored price is `0`. -/
def c1BadCatalog : List Product :=
  [{ id := "p1", title := "T", code := "X", price := ⟨0, 0⟩, categoryId := "c1",
     manufacturerId := "m1", categoryName := some "Shoes", manufacturerName := some "Nike",
     totalStock := none, sizes := [], image := "img", isVisible := true }]

/-- C1 counterexample: for the catalog `c1BadCatalog` of N = 1 existing
products (with matching category/manufacturer catalogs and an
always-succeeding service), exporting and re-importing does not yield 1
`Updated` and 0 `Rejected`: the row is rejected for its non-positive
price, so the claim's "for every catalog" fails. -/
theorem c1_roundtrip_counterexample :
    importPass [⟨"c1", "Shoes"⟩] [⟨"m1", "Nike"⟩] c1BadCatalog svcOK
      (c1BadCatalog.map (exportRow "Yes" "No")) =
      ⟨.completedWithErrors, 0, 0, [.invalidPrice 2 "0"]⟩ := by
  decide

/-- C1 (amended): for every catalog of N existing products **each of which
is export-well-formed** — truthy title, code and image, positive price,
category and manufacturer names that resolve in the import's
case-insensitive maps, and sizes whose names need no JSON escapes and
whose stocks are canonical nonnegative integers — re-importing the
unmodified, unfiltered export against an always-succeeding service yields
N `Updated`, 0 `Inserted` and 0 rejections, because every exported row
carries the structured `SizesStockJSON` payload (parser strategy 1) and a
code already present in the code→product map. -/
theorem c1_roundtrip_updated (cats : List Category) (mans : List Manufacturer)
    (prods : List Product) (yes no : String)
    (hgood : ∀ p ∈ prods, GoodProduct cats mans p) :
    (importPass cats mans prods svcOK (prods.map (exportRow yes no))).updatedCount = prods.length ∧
    (importPass cats mans prods svcOK (prods.map (exportRow yes no))).importedCount = 0 ∧
    (importPass cats mans prods svcOK (prods.map (exportRow yes no))).errors = [] := by
  cases prods with
  | nil => exact ⟨rfl, rfl, rfl⟩
  | cons p tl =>
    have hmap : ∀ p' ∈ p :: tl, ∃ q, mapGet (productCodeMap (p :: tl)) (jsToLower p'.code) = some q := by
      intro p' hp'
      apply mapGet_isSome_of_mem
      exact ⟨(jsToLower p'.code, p'),
        by rw [productCodeMap]; exact List.mem_map.mpr ⟨p', hp', rfl⟩, rfl⟩
    obtain ⟨h1, h2, h3⟩ := runRows_exportRows cats mans (productCodeMap (p :: tl)) yes no
      (p :: tl) PassState.init 2 hgood hmap
    rw [importPass, if_neg (by simp)]
    refine ⟨?_, ?_, ?_⟩
    · show (runRows (categoryMap cats) (manufacturerMap mans) (productCodeMap (p :: tl))
        svcOK PassState.init 2 ((p :: tl).map (exportRow yes no))).updatedCount = (p :: tl).length
      rw [h2]
      simp [PassState.init]
    · show (runRows (categoryMap cats) (manufacturerMap mans) (productCodeMap (p :: tl))
        svcOK PassState.init 2 ((p :: tl).map (exportRow yes no))).importedCount = 0
      rw [h1]
      rfl
    · show (runRows (categoryMap cats) (manufacturerMap mans) (productCodeMap (p :: tl))
        svcOK PassState.init 2 ((p :: tl).map (exportRow yes no))).errors = []
      rw [h3]
      rfl

/-- One export-well-formed product used to instantiate the amended
round-trip result concretely. -/
def c1GoodCatalog : List Product :=
  [{ id := "p1", title := "Shirt", code := "SH1", price := ⟨1999, 2⟩, categoryId := "c1",
     manufacturerId := "m1", categoryName := some "Shoes", manufacturerName := some "Nike",
     totalStock := some ⟨5, 0⟩, sizes := [⟨"S", ⟨3, 0⟩⟩, ⟨"M", ⟨2, 0⟩⟩], image := "img.png",
     isVisible := true }]

/-- C1 witness: the amended round-trip theorem applied to a concrete
one-product catalog. -/
theorem c1_roundtrip_updated_witness :
    (importPass [⟨"c1", "Shoes"⟩] [⟨"m1", "Nike"⟩] c1GoodCatalog svcOK
      (c1GoodCatalog.map (exportRow "Yes" "No"))).updatedCount = c1GoodCatalog.length ∧
    (importPass [⟨"c1", "Shoes"⟩] [⟨"m1", "Nike"⟩] c1GoodCatalog svcOK
      (c1GoodCatalog.map (exportRow "Yes" "No"))).importedCount = 0 ∧
    (importPass [⟨"c1", "Shoes"⟩] [⟨"m1", "Nike"⟩] c1GoodCatalog svcOK
      (c1GoodCatalog.map (exportRow "Yes" "No"))).errors = [] := by
  apply c1_roundtrip_updated
  intro p hp
  simp only [c1GoodCatalog, List.mem_singleton] at hp
  subst hp
  exact ⟨by decide, by decide, by decide, by decide, by decide, by decide,
    ⟨"c1", by rfl⟩, ⟨"m1", by rfl⟩, by unfold GoodSizes; decide⟩

/-! ### Inversion facts about the rejection kinds of each stage -/

theorem zipSizes_error_not_missing (i : Nat) :
    ∀ (ns : List String) (j : Nat) (ss : List (String × Option Int)) (r : Reason) (k : Nat),
    zipSizes i j ns ss = .error r → r ≠ .missingRequired k := by
  intro ns
  induction ns with
  | nil =>
    intro j ss r k h
    simp [zipSizes] at h
  | cons name ns ih =>
    intro j ss r k h
    cases ss with
    | nil => simp [zipSizes] at h
    | cons p ss' =>
      rw [zipSizes] at h
      split at h
      · injection h with h
        subst h
        simp
      · split at h
        · injection h with h
          subst h
          simp
        · split at h
          · injection h with h
            subst h
            simp
          · split at h
            · injection h
            · rename_i r' heq
              injection h with h
              subst h
              exact ih _ _ _ k heq

theorem stage1Res_reject_not_missing (i k : Nat) (s : String) (r : Reason)
    (h : stage1Res i s = .rejectRow r) : r ≠ .missingRequired k := by
  rw [stage1Res] at h
  cases hj : jsonParseStr s with
  | none =>
    rw [hj] at h
    injection h with h
    subst h
    simp
  | some j =>
    rw [hj] at h
    cases j with
    | jarr xs =>
      replace h : (if xs.all sizeEntryOk = true then SizeOutcome.okSizes none s
          else SizeOutcome.rejectRow (Reason.sizesJsonBadShape i s)) = SizeOutcome.rejectRow r := h
      by_cases hall : xs.all sizeEntryOk = true
      · rw [if_pos hall] at h
        exact absurd h (by simp)
      · rw [if_neg hall] at h
        injection h with h
        subst h
        simp
    | jstr t => injection h with h; subst h; simp
    | jnum q => injection h with h; subst h; simp
    | jbool b => injection h with h; subst h; simp
    | jnull => injection h with h; subst h; simp
    | jobj fs => injection h with h; subst h; simp

theorem stage2Res_reject_not_missing (i k : Nat) (sl kl : String) (r : Reason)
    (h : stage2Res i sl kl = .rejectRow r) : r ≠ .missingRequired k := by
  simp only [stage2Res] at h
  by_cases hlen : ((splitComma sl).map jsTrim).length ≠
      ((splitComma kl).map (fun t => parseIntJs (jsTrim t))).length
  · rw [if_pos hlen] at h
    injection h with h
    subst h
    simp
  · rw [if_neg hlen] at h
    cases hz : zipSizes i 0 ((splitComma sl).map jsTrim)
        ((splitComma kl).zip ((splitComma kl).map (fun t => parseIntJs (jsTrim t)))) with
    | error r' =>
      rw [hz] at h
      injection h with h
      subst h
      exact zipSizes_error_not_missing i _ 0 _ _ k hz
    | ok arr =>
      rw [hz] at h
      exact absurd h (by simp)

theorem stage3Res_ok (i : Nat) (row : Row) : ∃ w s, stage3Res i row = .okSizes w s := by
  simp only [stage3Res]
  cases hts : row.TotalStock with
  | some v =>
    show ∃ w s, (match some (parseIntJs (jsToString v)) with
      | some (some n) =>
        if 0 ≤ n then SizeOutcome.okSizes none (stringifySizes [⟨"One Size", ⟨n, 0⟩⟩])
        else SizeOutcome.okSizes (some (Reason.noSizeData i)) "[]"
      | some none => SizeOutcome.okSizes (some (Reason.noSizeData i)) "[]"
      | none => SizeOutcome.okSizes (some (Reason.noSizeData i)) "[]") = SizeOutcome.okSizes w s
    cases hp : parseIntJs (jsToString v) with
    | some n =>
      show ∃ w s, (if 0 ≤ n then
          SizeOutcome.okSizes none (stringifySizes [⟨"One Size", ⟨n, 0⟩⟩])
        else SizeOutcome.okSizes (some (Reason.noSizeData i)) "[]") = SizeOutcome.okSizes w s
      by_cases h0 : 0 ≤ n
      · exact ⟨none, _, by rw [if_pos h0]⟩
      · exact ⟨some (Reason.noSizeData i), _, by rw [if_neg h0]⟩
    | none => exact ⟨some (Reason.noSizeData i), "[]", rfl⟩
  | none =>
    cases hst : row.Stock with
    | some v =>
      show ∃ w s, (match some (parseIntJs (jsToString v)) with
        | some (some n) =>
          if 0 ≤ n then SizeOutcome.okSizes none (stringifySizes [⟨"One Size", ⟨n, 0⟩⟩])
          else SizeOutcome.okSizes (some (Reason.noSizeData i)) "[]"
        | some none => SizeOutcome.okSizes (some (Reason.noSizeData i)) "[]"
        | none => SizeOutcome.okSizes (some (Reason.noSizeData i)) "[]") = SizeOutcome.okSizes w s
      cases hp : parseIntJs (jsToString v) with
      | some n =>
        show ∃ w s, (if 0 ≤ n then
            SizeOutcome.okSizes none (stringifySizes [⟨"One Size", ⟨n, 0⟩⟩])
          else SizeOutcome.okSizes (some (Reason.noSizeData i)) "[]") = SizeOutcome.okSizes w s
        by_cases h0 : 0 ≤ n
        · exact ⟨none, _, by rw [if_pos h0]⟩
        · exact ⟨some (Reason.noSizeData i), _, by rw [if_neg h0]⟩
      | none => exact ⟨some (Reason.noSizeData i), "[]", rfl⟩
    | none => exact ⟨some (Reason.noSizeData i), "[]", rfl⟩

theorem sizesStageCases (i : Nat) (row : Row) (a b c : String) :
    (∃ s, (if a ≠ "" then stage1Res i a
      else if b ≠ "" && c ≠ "" then stage2Res i b c
      else stage3Res i row) = stage1Res i s) ∨
    (∃ sl kl, (if a ≠ "" then stage1Res i a
      else if b ≠ "" && c ≠ "" then stage2Res i b c
      else stage3Res i row) = stage2Res i sl kl) ∨
    (if a ≠ "" then stage1Res i a
      else if b ≠ "" && c ≠ "" then stage2Res i b c
      else stage3Res i row) = stage3Res i row := by
  by_cases h1 : a ≠ ""
  · exact Or.inl ⟨a, by rw [if_pos h1]⟩
  · by_cases h2 : (b ≠ "" && c ≠ "") = true
    · exact Or.inr (Or.inl ⟨b, c, by rw [if_neg h1, if_pos h2]⟩)
    · exact Or.inr (Or.inr (by rw [if_neg h1, if_neg h2]))

theorem sizesStage_eq_stages (i : Nat) (row : Row) :
    (∃ s, sizesStage i row = stage1Res i s) ∨
    (∃ sl kl, sizesStage i row = stage2Res i sl kl) ∨
    sizesStage i row = stage3Res i row := by
  exact sizesStageCases i row
    (if truthyOpt row.SizesStockJSON then jsTrim (cellStr row.SizesStockJSON) else "")
    (if truthyOpt row.Sizes then jsTrim (cellStr row.Sizes) else "")
    (if truthyOpt row.Stocks then jsTrim (cellStr row.Stocks) else "")

theorem sizesStage_reject_not_missing (i k : Nat) (row : Row) (r : Reason)
    (h : sizesStage i row = .rejectRow r) : r ≠ .missingRequired k := by
  rcases sizesStage_eq_stages i row with ⟨s, hs⟩ | ⟨sl, kl, hs⟩ | hs
  · exact stage1Res_reject_not_missing i k s r (hs.symm.trans h)
  · exact stage2Res_reject_not_missing i k sl kl r (hs.symm.trans h)
  · obtain ⟨w, s, hok⟩ := stage3Res_ok i row
    rw [hs, hok] at h
    exact absurd h (by simp)

theorem rowValidate_missing_inv (cmap mmap : List (String × String)) (i : Nat) (row : Row)
    (h : rowValidate cmap mmap i row = .reject (.missingRequired i)) :
    requiredMissing row = true := by
  by_contra hreq
  have hreq' : requiredMissing row = false := by
    cases hx : requiredMissing row
    · rfl
    · exact absurd hx hreq
  rw [rowValidate, if_neg (by simp [hreq'])] at h
  cases hc : resolveRef cmap row.Category with
  | none => rw [hc] at h; simp at h
  | some cid =>
    rw [hc] at h
    cases hm : resolveRef mmap row.Manufacturer with
    | none => rw [hm] at h; simp at h
    | some mid =>
      rw [hm] at h
      cases hp : parseFloatOpt row.Price with
      | none => rw [hp] at h; simp at h
      | some price =>
        rw [hp] at h
        replace h : (if (!price.isPos) = true then
            RowCheck.reject (Reason.invalidPrice i (cellStr row.Price))
          else match sizesStage i row with
            | SizeOutcome.rejectRow r => RowCheck.reject r
            | SizeOutcome.okSizes warn sizesString =>
              RowCheck.ok warn
                { title := cellStr row.Title, code := cellStr row.Code, price := price,
                  categoryId := cid, manufacturerId := mid, sizes := sizesString,
                  image := cellStr row.ImageURL,
                  isVisible := parseVisible row.IsVisible }) =
            RowCheck.reject (Reason.missingRequired i) := h
        by_cases hpos : price.isPos = true
        · have hcnd : ¬((!price.isPos) = true) := by simp [hpos]
          rw [if_neg hcnd] at h
          cases hs : sizesStage i row with
          | rejectRow r =>
            rw [hs] at h
            injection h with h
            exact sizesStage_reject_not_missing i i row r hs h
          | okSizes w ss => rw [hs] at h; simp at h
        · have hcnd : (!price.isPos) = true := by
            cases hb : price.isPos
            · rfl
            · exact absurd hb hpos
          rw [if_pos hcnd] at h
          simp at h

/-! ### Generic facts about one loop iteration -/

/-- A rejected row appends exactly its one reason to `errors` and issues
no mutation call: the source pushes one message and `continue`s. -/
theorem processRow_reject (cmap mmap : List (String × String)) (pmap : List (String × Product))
    (svc : Service) (st : PassState) (i : Nat) (row : Row) (r : Reason)
    (h : rowValidate cmap mmap i row = RowCheck.reject r) :
    processRow cmap mmap pmap svc st i row = { st with errors := st.errors ++ [r] } := by
  rw [processRow, h]

/-- The `isVisible` of any accepted row's payload is `parseVisible` of the
row's `Is Visible` cell. -/
theorem rowValidate_ok_isVisible (cmap mmap : List (String × String)) (i : Nat) (row : Row)
    (warn : Option Reason) (pd : ProductFormData)
    (h : rowValidate cmap mmap i row = RowCheck.ok warn pd) :
    pd.isVisible = parseVisible row.IsVisible := by
  rw [rowValidate] at h
  repeat' split at h
  all_goals
    first
      | (injection h
         done)
      | (injection h with hw hpd
         subst hpd
         rfl)

/-! ### Positional analysis of strategy 2's zip loop -/

/-- One position of strategy 2's zip: the reason that position fails with,
`none` when it passes the empty-name, `NaN` and negativity checks. -/
def pairFail (i jAbs : Nat) (name : String) (p : String × Option Int) : Option Reason :=
  if name = "" then some (Reason.emptySizeName i (jAbs + 1))
  else
    match p.2 with
    | none => some (Reason.stockNotANumber i name (jsTrim p.1))
    | some v => if v < 0 then some (Reason.stockNegative i name v) else none

theorem pairFail_none {i jAbs : Nat} {name : String} {p : String × Option Int}
    (h : pairFail i jAbs name p = none) :
    name ≠ "" ∧ ∃ v, p.2 = some v ∧ ¬v < 0 := by
  rw [pairFail] at h
  by_cases hn : name = ""
  · rw [if_pos hn] at h
    exact absurd h (by simp)
  · rw [if_neg hn] at h
    refine ⟨hn, ?_⟩
    split at h
    · exact absurd h (by simp)
    · rename_i v heq
      split at h
      · exact absurd h (by simp)
      · rename_i hv
        exact ⟨v, heq, hv⟩

/-- Fail-fast of the zip loop: when every position before `j` passes and
position `j` fails, the loop returns exactly position `j`'s reason. -/
theorem zipSizes_fail_first (i : Nat) : ∀ (j : Nat) (ns : List String)
    (ss : List (String × Option Int)) (j0 : Nat) (r : Reason),
    j < ns.length → j < ss.length →
    pairFail i (j0 + j) (ns.getD j "") (ss.getD j ("", none)) = some r →
    (∀ j', j' < j → pairFail i (j0 + j') (ns.getD j' "") (ss.getD j' ("", none)) = none) →
    zipSizes i j0 ns ss = Except.error r
  | j, [], _, _, _, hn, _, _, _ => by simp at hn
  | j, name0 :: ns, [], _, _, _, hp, _, _ => by simp at hp
  | 0, name0 :: ns, p0 :: ss, j0, r, hn, hp, hf, _ => by
    simp only [List.getD_cons_zero, Nat.add_zero] at hf
    rw [pairFail] at hf
    rw [zipSizes]
    by_cases hne : name0 = ""
    · rw [if_pos hne] at hf
      rw [if_pos hne]
      injection hf with hf
      rw [hf]
    · rw [if_neg hne] at hf
      rw [if_neg hne]
      split at hf
      · injection hf with hf
        subst hf
        rfl
      · rename_i v heq
        split at hf
        · rename_i hv
          injection hf with hf
          subst hf
          rw [if_pos hv]
        · exact absurd hf (by simp)
  | j + 1, name0 :: ns, p0 :: ss, j0, r, hn, hp, hf, hall => by
    have h0 : pairFail i (j0 + 0) ((name0 :: ns).getD 0 "")
        ((p0 :: ss).getD 0 ("", none)) = none := hall 0 (by omega)
    simp only [List.getD_cons_zero, Nat.add_zero] at h0
    obtain ⟨hne, v, hv, hvnn⟩ := pairFail_none h0
    have hrec : zipSizes i (j0 + 1) ns ss = Except.error r := by
      apply zipSizes_fail_first i j ns ss (j0 + 1) r
      · simp at hn; omega
      · simp at hp; omega
      · have he : j0 + 1 + j = j0 + (j + 1) := by omega
        rw [he]
        simpa only [List.getD_cons_succ] using hf
      · intro j' hj'
        have hx := hall (j' + 1) (by omega)
        simp only [List.getD_cons_succ] at hx
        have he : j0 + 1 + j' = j0 + (j' + 1) := by omega
        rw [he]
        exact hx
    rw [zipSizes, if_neg hne, hv]
    show (if v < 0 then Except.error (Reason.stockNegative i name0 v)
      else match zipSizes i (j0 + 1) ns ss with
        | Except.ok rest => Except.ok (⟨name0, ⟨v, 0⟩⟩ :: rest)
        | Except.error e => Except.error e) = Except.error r
    rw [if_neg hvnn, hrec]

/-- When every position passes, the zip loop succeeds. -/
theorem zipSizes_ok_all_good (i : Nat) : ∀ (ns : List String)
    (ss : List (String × Option Int)) (j0 : Nat),
    (∀ j, j < ns.length → j < ss.length →
      pairFail i (j0 + j) (ns.getD j "") (ss.getD j ("", none)) = none) →
    ∃ arr, zipSizes i j0 ns ss = Except.ok arr
  | [], ss, j0, _ => ⟨[], by cases ss <;> rfl⟩
  | name0 :: ns, [], j0, _ => ⟨[], rfl⟩
  | name0 :: ns, p0 :: ss, j0, hall => by
    have h0 : pairFail i (j0 + 0) ((name0 :: ns).getD 0 "")
        ((p0 :: ss).getD 0 ("", none)) = none := hall 0 (by simp) (by simp)
    simp only [List.getD_cons_zero, Nat.add_zero] at h0
    obtain ⟨hne, v, hv, hvnn⟩ := pairFail_none h0
    obtain ⟨arr, harr⟩ := zipSizes_ok_all_good i ns ss (j0 + 1) (fun j hj1 hj2 => by
      have hx := hall (j + 1) (by simpa using hj1) (by simpa using hj2)
      simp only [List.getD_cons_succ] at hx
      have he : j0 + 1 + j = j0 + (j + 1) := by omega
      rw [he]
      exact hx)
    refine ⟨⟨name0, ⟨v, 0⟩⟩ :: arr, ?_⟩
    rw [zipSizes, if_neg hne, hv]
    show (if v < 0 then Except.error (Reason.stockNegative i name0 v)
      else match zipSizes i (j0 + 1) ns ss with
        | Except.ok rest => Except.ok (⟨name0, ⟨v, 0⟩⟩ :: rest)
        | Except.error e => Except.error e) = Except.ok (⟨name0, ⟨v, 0⟩⟩ :: arr)
    rw [if_neg hvnn, harr]

/-- What the `every`-predicate of strategy 1 accepts: an object whose
`size` property is any string (possibly empty) and whose `stock` property
is any nonnegative number (possibly fractional). -/
theorem sizeEntryOk_iff (v : Jval) :
    sizeEntryOk v = true ↔
      ∃ fs, v = Jval.jobj fs ∧ (∃ t, jobjGet fs "size" = some (Jval.jstr t)) ∧
        ∃ q, jobjGet fs "stock" = some (Jval.jnum q) ∧ q.isNonneg = true := by
  constructor
  · intro hv
    cases v with
    | jobj fs =>
      simp only [sizeEntryOk, Bool.and_eq_true] at hv
      obtain ⟨h1, h2⟩ := hv
      refine ⟨fs, rfl, ?_, ?_⟩
      · split at h1
        · rename_i t heq
          exact ⟨t, heq⟩
        all_goals exact absurd h1 (by simp)
      · split at h2
        · rename_i q heq
          exact ⟨q, heq, h2⟩
        all_goals exact absurd h2 (by simp)
    | jstr t => simp [sizeEntryOk] at hv
    | jnum q => simp [sizeEntryOk] at hv
    | jbool b => simp [sizeEntryOk] at hv
    | jnull => simp [sizeEntryOk] at hv
    | jarr xs => simp [sizeEntryOk] at hv
  · rintro ⟨fs, rfl, ⟨t, ht⟩, ⟨q, hq, hqn⟩⟩
    simp [sizeEntryOk, ht, hq, hqn]

/-! ### C2: per-row reconciliation -/

/-- C2: for every row that passes validation, the parsed code is looked up
case-insensitively in the pre-built code→product map; if found, an update
is issued with the existing product's id and counted as Updated on
success; if not found, an insert is issued and counted as Inserted on
success; a mutation failure is recorded as that row's service-error reason
while the pass continues with the remaining rows; and two validated rows
sharing the same not-yet-existing code both attempt insert (the static map
is never updated during the pass). -/
theorem c2_reconciliation (cmap mmap : List (String × String)) (pmap : List (String × Product))
    (svc : Service) (st : PassState) (i : Nat) (row : Row) (warn : Option Reason)
    (pd : ProductFormData) (h : rowValidate cmap mmap i row = RowCheck.ok warn pd) :
    (∀ q, mapGet pmap (jsToLower pd.code) = some q →
      (svc (MutationCall.update q.id pd) = none →
        processRow cmap mmap pmap svc st i row =
          ⟨st.importedCount, st.updatedCount + 1, st.errors ++ warn.toList,
            st.calls ++ [MutationCall.update q.id pd]⟩) ∧
      (∀ msg, svc (MutationCall.update q.id pd) = some msg →
        processRow cmap mmap pmap svc st i row =
          ⟨st.importedCount, st.updatedCount,
            st.errors ++ warn.toList ++ [Reason.serviceError i pd.code msg],
            st.calls ++ [MutationCall.update q.id pd]⟩)) ∧
    (mapGet pmap (jsToLower pd.code) = none →
      (svc (MutationCall.insert pd) = none →
        processRow cmap mmap pmap svc st i row =
          ⟨st.importedCount + 1, st.updatedCount, st.errors ++ warn.toList,
            st.calls ++ [MutationCall.insert pd]⟩) ∧
      (∀ msg, svc (MutationCall.insert pd) = some msg →
        processRow cmap mmap pmap svc st i row =
          ⟨st.importedCount, st.updatedCount,
            st.errors ++ warn.toList ++ [Reason.serviceError i pd.code msg],
            st.calls ++ [MutationCall.insert pd]⟩)) ∧
    (∀ rest, runRows cmap mmap pmap svc st i (row :: rest) =
      runRows cmap mmap pmap svc (processRow cmap mmap pmap svc st i row) (i + 1) rest) ∧
    (∀ (row2 : Row) (warn2 : Option Reason) (pd2 : ProductFormData),
      rowValidate cmap mmap (i + 1) row2 = RowCheck.ok warn2 pd2 →
      jsToLower pd2.code = jsToLower pd.code →
      mapGet pmap (jsToLower pd.code) = none →
      (runRows cmap mmap pmap svcOK st i [row, row2]).calls =
        st.calls ++ [MutationCall.insert pd, MutationCall.insert pd2]) := by
  refine ⟨?_, ?_, ?_, ?_⟩
  · intro q hq
    constructor
    · intro hsvc
      rw [processRow]
      simp only [h, hq, hsvc]
    · intro msg hsvc
      rw [processRow]
      simp only [h, hq, hsvc]
  · intro hq
    constructor
    · intro hsvc
      rw [processRow]
      simp only [h, hq, hsvc]
    · intro msg hsvc
      rw [processRow]
      simp only [h, hq, hsvc]
  · intro rest
    rw [runRows]
  · intro row2 warn2 pd2 h2 hcode hmg
    have hmg2 : mapGet pmap (jsToLower pd2.code) = none := by rw [hcode]; exact hmg
    have hpr1 : processRow cmap mmap pmap svcOK st i row =
        ⟨st.importedCount + 1, st.updatedCount, st.errors ++ warn.toList,
          st.calls ++ [MutationCall.insert pd]⟩ := by
      rw [processRow]
      simp only [h, hmg]
      rfl
    have hpr2 : processRow cmap mmap pmap svcOK
        (⟨st.importedCount + 1, st.updatedCount, st.errors ++ warn.toList,
          st.calls ++ [MutationCall.insert pd]⟩ : PassState) (i + 1) row2 =
        ⟨st.importedCount + 1 + 1, st.updatedCount,
          (st.errors ++ warn.toList) ++ warn2.toList,
          (st.calls ++ [MutationCall.insert pd]) ++ [MutationCall.insert pd2]⟩ := by
      rw [processRow]
      simp only [h2, hmg2]
      rfl
    rw [runRows, hpr1, runRows, hpr2, runRows]
    simp

/-- A concrete valid import row: aggregate `TotalStock` supplies the sizes. -/
def c2Row : Row :=
  { Title := some (.str "T"), Code := some (.str "X"), Price := some (.num ⟨5, 0⟩),
    Category := some (.str "Shoes"), Manufacturer := some (.str "Nike"),
    ImageURL := some (.str "img"), TotalStock := some (.num ⟨3, 0⟩) }

/-- The payload `c2Row` validates to. -/
def c2Pd : ProductFormData :=
  { title := "T", code := "X", price := ⟨5, 0⟩, categoryId := "c1", manufacturerId := "m1",
    sizes := stringifySizes [⟨"One Size", ⟨3, 0⟩⟩], image := "img", isVisible := true }

/-- C2 witness: a concrete validated row whose code is absent from the
code map is inserted and counted. -/
theorem c2_reconciliation_witness :
    processRow [("shoes", "c1")] [("nike", "m1")] [] svcOK PassState.init 2 c2Row =
      ⟨1, 0, [], [MutationCall.insert c2Pd]⟩ :=
  ((c2_reconciliation [("shoes", "c1")] [("nike", "m1")] [] svcOK PassState.init 2 c2Row
      none c2Pd (by decide)).2.1 rfl).1 rfl

/-! ### C3: the required-field gate -/

/-- A row whose six required cells are all present and non-null, with an
empty-string `Title`. -/
def c3Row : Row :=
  { Title := some (.str ""), Code := some (.str "X"), Price := some (.num ⟨5, 0⟩),
    Category := some (.str "Shoes"), Manufacturer := some (.str "Nike"),
    ImageURL := some (.str "img"), TotalStock := some (.num ⟨3, 0⟩) }

/-- C3 counterexample: every one of the six required cells of `c3Row` is
present and non-null (`isNullish` is false for each), yet the row is
rejected by the required-field gate — the source tests JS truthiness, and
the present empty-string `Title` is falsy.  This refutes the claim's
converse ("a row whose six required fields are all present and non-null is
never rejected by this check"). -/
theorem c3_required_counterexample :
    (isNullish c3Row.Title = false ∧ isNullish c3Row.Code = false ∧
      isNullish c3Row.Price = false ∧ isNullish c3Row.Category = false ∧
      isNullish c3Row.Manufacturer = false ∧ isNullish c3Row.ImageURL = false) ∧
    rowValidate [("shoes", "c1")] [("nike", "m1")] 2 c3Row =
      RowCheck.reject (Reason.missingRequired 2) := by
  decide

/-- C3 (amended): the gate rejects with the single all-fields reason
exactly when the JS-truthiness test fires — `Title`, `Code`, `Category`,
`Manufacturer` or `Image URL` falsy (absent, null, or present but empty /
zero / false), or `Price` loosely equal to null.  When it fires, the loop
iteration appends exactly that one reason, performs no further validation
and issues no mutation call. -/
theorem c3_required_gate (cmap mmap : List (String × String)) (pmap : List (String × Product))
    (svc : Service) (st : PassState) (i : Nat) (row : Row) :
    (rowValidate cmap mmap i row = RowCheck.reject (Reason.missingRequired i) ↔
      requiredMissing row = true) ∧
    (requiredMissing row = true →
      processRow cmap mmap pmap svc st i row =
        { st with errors := st.errors ++ [Reason.missingRequired i] }) := by
  constructor
  · constructor
    · exact fun h => rowValidate_missing_inv cmap mmap i row h
    · intro h
      rw [rowValidate, if_pos h]
  · intro h
    exact processRow_reject cmap mmap pmap svc st i row _ (by rw [rowValidate, if_pos h])

/-- C3 witness: the all-absent row is rejected with the one reason and no
mutation call. -/
theorem c3_required_gate_witness :
    processRow [] [] [] svcOK PassState.init 2 {} =
      ⟨0, 0, [Reason.missingRequired 2], []⟩ :=
  (c3_required_gate [] [] [] svcOK PassState.init 2 {}).2 (by decide)

/-! ### C4: aggregate report policy -/

/-- C4 counterexample: a two-row import in which the first row succeeds
(1 Inserted) and the second row is rejected is reported through the error
channel (`completedWithErrors`, the source's `setActionError`), not as a
success — refuting "if there were any successes, report success even if
some rows were also rejected". -/
theorem c4_report_counterexample :
    importPass [⟨"c1", "Shoes"⟩] [⟨"m1", "Nike"⟩] [] svcOK [c2Row, c3Row] =
      ⟨ReportKind.completedWithErrors, 1, 0, [Reason.missingRequired 3]⟩ ∧
    ReportKind.completedWithErrors ≠ ReportKind.successReport := by
  decide

/-- C4 (amended): the empty sheet is reported as the distinct empty-input
condition; otherwise any recorded error makes the report
`completedWithErrors` regardless of successes, and the pass is reported a
success exactly when there is no error and at least one insert or
update. -/
theorem c4_report_policy (cats : List Category) (mans : List Manufacturer)
    (prods : List Product) (svc : Service) (rows : List Row) :
    ((importPass cats mans prods svc rows).kind = ReportKind.emptyInput ↔ rows = []) ∧
    ((importPass cats mans prods svc rows).kind = ReportKind.completedWithErrors ↔
      rows ≠ [] ∧ (importPass cats mans prods svc rows).errors ≠ []) ∧
    ((importPass cats mans prods svc rows).kind = ReportKind.successReport ↔
      rows ≠ [] ∧ (importPass cats mans prods svc rows).errors = [] ∧
        (0 < (importPass cats mans prods svc rows).importedCount ∨
          0 < (importPass cats mans prods svc rows).updatedCount)) := by
  cases rows with
  | nil =>
    have h : importPass cats mans prods svc [] = ⟨ReportKind.emptyInput, 0, 0, []⟩ := rfl
    rw [h]
    refine ⟨by simp, by simp, by simp⟩
  | cons r rs =>
    have h : importPass cats mans prods svc (r :: rs) =
        ⟨(if !(runRows (categoryMap cats) (manufacturerMap mans) (productCodeMap prods) svc
              PassState.init 2 (r :: rs)).errors.isEmpty then ReportKind.completedWithErrors
          else if 0 < (runRows (categoryMap cats) (manufacturerMap mans) (productCodeMap prods)
                svc PassState.init 2 (r :: rs)).importedCount ||
              0 < (runRows (categoryMap cats) (manufacturerMap mans) (productCodeMap prods)
                svc PassState.init 2 (r :: rs)).updatedCount then
            ReportKind.successReport
          else ReportKind.nothingImported),
          (runRows (categoryMap cats) (manufacturerMap mans) (productCodeMap prods) svc
            PassState.init 2 (r :: rs)).importedCount,
          (runRows (categoryMap cats) (manufacturerMap mans) (productCodeMap prods) svc
            PassState.init 2 (r :: rs)).updatedCount,
          (runRows (categoryMap cats) (manufacturerMap mans) (productCodeMap prods) svc
            PassState.init 2 (r :: rs)).errors⟩ := rfl
    rw [h]
    generalize runRows (categoryMap cats) (manufacturerMap mans) (productCodeMap prods) svc
      PassState.init 2 (r :: rs) = st
    by_cases herr : st.errors = []
    · have hie : st.errors.isEmpty = true := by rw [herr]; rfl
      by_cases hcnt : (0 < st.importedCount || 0 < st.updatedCount) = true
      · have hcnt' : 0 < st.importedCount ∨ 0 < st.updatedCount := by simpa using hcnt
        refine ⟨by simp [hie, hcnt], by simp [hie, hcnt, herr], by simp [hie, hcnt, herr, hcnt']⟩
      · have hcnt' : ¬(0 < st.importedCount ∨ 0 < st.updatedCount) := by
          intro hx
          exact hcnt (by simpa using hx)
        have hcf : (0 < st.importedCount || 0 < st.updatedCount) = false := by
          cases hx : (0 < st.importedCount || 0 < st.updatedCount)
          · rfl
          · exact absurd hx hcnt
        refine ⟨by simp [hie, hcf], by simp [hie, hcf, herr], by simp [hie, hcf, hcnt']⟩
    · have hie : st.errors.isEmpty = false := by
        cases hx : st.errors with
        | nil => exact absurd hx herr
        | cons a l => rfl
      refine ⟨by simp [hie], by simp [hie, herr], by simp [hie, herr]⟩

/-- C4 witness: the empty sheet yields the empty-input report. -/
theorem c4_report_policy_witness :
    (importPass [] [] [] svcOK []).kind = ReportKind.emptyInput :=
  (c4_report_policy [] [] [] svcOK []).1.mpr rfl

/-! ### C5: visibility parsing -/

/-- C5 counterexample: the present, truthy, non-affirmative value "no" is
parsed as `isVisible = false`, refuting "absence or any non-affirmative
value defaults to visible = true, never false". -/
theorem c5_visibility_counterexample :
    truthyOpt (some (CellVal.str "no")) = true ∧
    jsToLower (cellStr (some (CellVal.str "no"))) ≠ "yes" ∧
    jsToLower (cellStr (some (CellVal.str "no"))) ≠ "true" ∧
    parseVisible (some (CellVal.str "no")) = false := by
  decide

/-- C5 (amended): an accepted row's `isVisible` is `parseVisible` of its
'Is Visible' cell, and `parseVisible` is `true` exactly when the cell is
JS-falsy (absent, null, empty string, zero, false) or case-insensitively
equal to "yes" or "true" — a present truthy non-affirmative value (such as
"no") yields `false`, while an absent column yields `true`. -/
theorem c5_visibility (cmap mmap : List (String × String)) (i : Nat) (row : Row)
    (warn : Option Reason) (pd : ProductFormData)
    (h : rowValidate cmap mmap i row = RowCheck.ok warn pd) :
    pd.isVisible = parseVisible row.IsVisible ∧
    (parseVisible row.IsVisible = true ↔
      truthyOpt row.IsVisible = false ∨ jsToLower (cellStr row.IsVisible) = "yes" ∨
        jsToLower (cellStr row.IsVisible) = "true") ∧
    (row.IsVisible = none → parseVisible row.IsVisible = true) := by
  refine ⟨rowValidate_ok_isVisible cmap mmap i row warn pd h, ?_, ?_⟩
  · simp only [parseVisible]
    by_cases ht : truthyOpt row.IsVisible = true
    · rw [if_pos ht]
      simp [ht, Bool.or_eq_true, decide_eq_true_eq]
    · have ht' : truthyOpt row.IsVisible = false := by
        cases hx : truthyOpt row.IsVisible
        · rfl
        · exact absurd hx ht
      rw [if_neg ht]
      simp [ht']
  · intro hnone
    rw [hnone]
    decide

/-- C5 witness: the amended statement at a concrete accepted row with the
visibility column absent. -/
theorem c5_visibility_witness :
    c2Pd.isVisible = parseVisible c2Row.IsVisible ∧
    (parseVisible c2Row.IsVisible = true ↔
      truthyOpt c2Row.IsVisible = false ∨ jsToLower (cellStr c2Row.IsVisible) = "yes" ∨
        jsToLower (cellStr c2Row.IsVisible) = "true") ∧
    (c2Row.IsVisible = none → parseVisible c2Row.IsVisible = true) :=
  c5_visibility [("shoes", "c1")] [("nike", "m1")] 2 c2Row none c2Pd (by decide)

/-! ### C6: unresolved category/manufacturer references -/

/-- A row with an unknown category name and an unparsable price. -/
def c6Row : Row :=
  { Title := some (.str "T"), Code := some (.str "X"), Price := some (.str "abc"),
    Category := some (.str "Unknown"), Manufacturer := some (.str "Nike"),
    ImageURL := some (.str "img") }

/-- C6 counterexample: `c6Row` has an unresolvable category AND an invalid
price, yet the iteration records only the single category reason — the
source pushes the message and `continue`s, so validation does NOT proceed
to the other fields and reasons do not accumulate. -/
theorem c6_unresolved_counterexample :
    parseFloatOpt c6Row.Price = none ∧
    processRow [("shoes", "c1")] [("nike", "m1")] [] svcOK PassState.init 2 c6Row =
      ⟨0, 0, [Reason.categoryNotFound 2 "Unknown"], []⟩ := by
  decide

/-- C6 (amended): a row passing the required gate whose category fails the
case-insensitive lookup is rejected with exactly the one reason naming the
unresolved raw value — independently of every other field, with no
mutation call; a resolvable category with an unresolvable manufacturer
likewise yields exactly the one manufacturer reason. -/
theorem c6_unresolved_refs (cmap mmap : List (String × String)) (pmap : List (String × Product))
    (svc : Service) (st : PassState) (i : Nat) (row : Row)
    (hreq : requiredMissing row = false) :
    (resolveRef cmap row.Category = none →
      processRow cmap mmap pmap svc st i row =
        { st with errors := st.errors ++ [Reason.categoryNotFound i (cellStr row.Category)] }) ∧
    (∀ cid, resolveRef cmap row.Category = some cid →
      resolveRef mmap row.Manufacturer = none →
      processRow cmap mmap pmap svc st i row =
        { st with errors :=
            st.errors ++ [Reason.manufacturerNotFound i (cellStr row.Manufacturer)] }) := by
  constructor
  · intro hc
    refine processRow_reject cmap mmap pmap svc st i row _ ?_
    rw [rowValidate, if_neg (by simp [hreq]), hc]
  · intro cid hc hm
    refine processRow_reject cmap mmap pmap svc st i row _ ?_
    rw [rowValidate, if_neg (by simp [hreq]), hc, hm]

/-- C6 witness: the amended short-circuit statement at `c6Row`. -/
theorem c6_unresolved_refs_witness :
    processRow [("shoes", "c1")] [("nike", "m1")] [] svcOK PassState.init 2 c6Row =
      ⟨0, 0, [Reason.categoryNotFound 2 "Unknown"], []⟩ :=
  (c6_unresolved_refs [("shoes", "c1")] [("nike", "m1")] [] svcOK PassState.init 2 c6Row
    (by decide)).1 (by decide)

/-! ### C7: the structured SizesStockJSON payload -/

/-- C7 counterexample: the payload `[{"size":"","stock":2.5}]` — an
element with an EMPTY size string and a NON-INTEGER stock — is accepted by
strategy 1, refuting "every element must have a non-empty string size and
an integer stock ≥ 0": the source only checks `typeof s.size === 'string'`
and `typeof s.stock === 'number' && s.stock >= 0`. -/
theorem c7_sizes_json_counterexample :
    jsonParseStr "[\x7b\"size\":\"\",\"stock\":2.5\x7d]" =
      some (Jval.jarr [Jval.jobj [("size", Jval.jstr ""), ("stock", Jval.jnum ⟨25, 1⟩)]]) ∧
    stage1Res 2 "[\x7b\"size\":\"\",\"stock\":2.5\x7d]" =
      SizeOutcome.okSizes none "[\x7b\"size\":\"\",\"stock\":2.5\x7d]" :=
  ⟨rfl, by decide⟩

/-- C7 (amended): a non-empty payload is accepted by strategy 1 exactly
when it parses as a JSON array whose every element is an object with a
string `size` (possibly empty) and a nonnegative numeric `stock` (possibly
fractional); a parse failure rejects with the parse-detail reason, a
successful parse to any non-array value rejects with the shape reason,
both reasons carry the payload, and a rejected row appends exactly that
one reason and issues no mutation call. -/
theorem c7_sizes_json (i : Nat) (s : String) :
    (jsonParseStr s = none →
      stage1Res i s = SizeOutcome.rejectRow (Reason.sizesJsonBadParse i s)) ∧
    (∀ xs, jsonParseStr s = some (Jval.jarr xs) →
      stage1Res i s = (if xs.all sizeEntryOk then SizeOutcome.okSizes none s
        else SizeOutcome.rejectRow (Reason.sizesJsonBadShape i s))) ∧
    (∀ j, jsonParseStr s = some j → (∀ xs, j ≠ Jval.jarr xs) →
      stage1Res i s = SizeOutcome.rejectRow (Reason.sizesJsonBadShape i s)) ∧
    (stage1Res i s = SizeOutcome.okSizes none s ↔
      ∃ xs, jsonParseStr s = some (Jval.jarr xs) ∧ xs.all sizeEntryOk = true) ∧
    (∀ v, sizeEntryOk v = true ↔
      ∃ fs, v = Jval.jobj fs ∧ (∃ t, jobjGet fs "size" = some (Jval.jstr t)) ∧
        ∃ q, jobjGet fs "stock" = some (Jval.jnum q) ∧ q.isNonneg = true) ∧
    (∀ (cmap mmap : List (String × String)) (pmap : List (String × Product)) (svc : Service)
        (st : PassState) (row : Row) (r : Reason),
      rowValidate cmap mmap i row = RowCheck.reject r →
      processRow cmap mmap pmap svc st i row = { st with errors := st.errors ++ [r] }) := by
  refine ⟨?_, ?_, ?_, ?_, sizeEntryOk_iff, ?_⟩
  · intro hp
    rw [stage1Res, hp]
  · intro xs hp
    rw [stage1Res, hp]
  · intro j hp hnot
    rw [stage1Res, hp]
    cases j with
    | jarr xs => exact absurd rfl (hnot xs)
    | jstr t => rfl
    | jnum q => rfl
    | jbool b => rfl
    | jnull => rfl
    | jobj fs => rfl
  · constructor
    · intro h
      cases hp : jsonParseStr s with
      | none =>
        rw [stage1Res, hp] at h
        exact absurd h (by simp)
      | some j =>
        cases j with
        | jarr xs =>
          rw [stage1Res, hp] at h
          replace h : (if xs.all sizeEntryOk = true then SizeOutcome.okSizes none s
              else SizeOutcome.rejectRow (Reason.sizesJsonBadShape i s)) =
              SizeOutcome.okSizes none s := h
          by_cases hall : xs.all sizeEntryOk = true
          · exact ⟨xs, rfl, hall⟩
          · rw [if_neg hall] at h
            exact absurd h (by simp)
        | jstr t => rw [stage1Res, hp] at h; exact absurd h (by simp)
        | jnum q => rw [stage1Res, hp] at h; exact absurd h (by simp)
        | jbool b => rw [stage1Res, hp] at h; exact absurd h (by simp)
        | jnull => rw [stage1Res, hp] at h; exact absurd h (by simp)
        | jobj fs => rw [stage1Res, hp] at h; exact absurd h (by simp)
    · rintro ⟨xs, hp, hall⟩
      rw [stage1Res, hp]
      replace hall : xs.all sizeEntryOk = true := hall
      show (if xs.all sizeEntryOk = true then SizeOutcome.okSizes none s
        else SizeOutcome.rejectRow (Reason.sizesJsonBadShape i s)) = SizeOutcome.okSizes none s
      rw [if_pos hall]
  · intro cmap mmap pmap svc st row r hrej
    exact processRow_reject cmap mmap pmap svc st i row r hrej

/-- C7 witness: the empty array payload parses and is accepted, and the
non-array payload "5" is rejected with the shape reason. -/
theorem c7_sizes_json_witness :
    stage1Res 2 "[]" = SizeOutcome.okSizes none "[]" ∧
    stage1Res 2 "5" = SizeOutcome.rejectRow (Reason.sizesJsonBadShape 2 "5") := by
  constructor
  · have h := (c7_sizes_json 2 "[]").2.1 [] rfl
    simpa using h
  · exact (c7_sizes_json 2 "5").2.2.1 (Jval.jnum ⟨5, 0⟩) rfl (fun xs h => by injection h)

/-! ### C8: the parallel Sizes/Stocks columns -/

/-- C8: with strategy 2's split-trim-zip lists, a length mismatch rejects
with the two counts; when lengths agree, a first failing position (all
earlier positions passing) rejects with exactly that position's reason —
empty name, unparsable stock token, or negative stock — so validation is
fail-fast and at most one positional reason is recorded; when every
position passes the strategy succeeds; and any rejected row appends
exactly its one reason and issues no mutation call. -/
theorem c8_parallel_columns (i : Nat) (sl kl : String) :
    (((splitComma sl).map jsTrim).length ≠
        ((splitComma kl).map (fun t => parseIntJs (jsTrim t))).length →
      stage2Res i sl kl = SizeOutcome.rejectRow (Reason.sizesStocksMismatch i
        ((splitComma sl).map jsTrim).length
        ((splitComma kl).map (fun t => parseIntJs (jsTrim t))).length)) ∧
    (∀ j r, ((splitComma sl).map jsTrim).length =
        ((splitComma kl).map (fun t => parseIntJs (jsTrim t))).length →
      j < ((splitComma sl).map jsTrim).length →
      pairFail i j (((splitComma sl).map jsTrim).getD j "")
        (((splitComma kl).zip ((splitComma kl).map (fun t => parseIntJs (jsTrim t)))).getD j
          ("", none)) = some r →
      (∀ j', j' < j → pairFail i j' (((splitComma sl).map jsTrim).getD j' "")
        (((splitComma kl).zip ((splitComma kl).map (fun t => parseIntJs (jsTrim t)))).getD j'
          ("", none)) = none) →
      stage2Res i sl kl = SizeOutcome.rejectRow r) ∧
    (((splitComma sl).map jsTrim).length =
        ((splitComma kl).map (fun t => parseIntJs (jsTrim t))).length →
      (∀ j, j < ((splitComma sl).map jsTrim).length →
        pairFail i j (((splitComma sl).map jsTrim).getD j "")
          (((splitComma kl).zip ((splitComma kl).map (fun t => parseIntJs (jsTrim t)))).getD j
            ("", none)) = none) →
      ∃ arr, stage2Res i sl kl = SizeOutcome.okSizes none (stringifySizes arr)) ∧
    (∀ (cmap mmap : List (String × String)) (pmap : List (String × Product)) (svc : Service)
        (st : PassState) (row : Row) (r : Reason),
      rowValidate cmap mmap i row = RowCheck.reject r →
      (processRow cmap mmap pmap svc st i row).calls = st.calls ∧
      (processRow cmap mmap pmap svc st i row).errors = st.errors ++ [r]) := by
  have hzlen : ((splitComma kl).zip ((splitComma kl).map (fun t => parseIntJs (jsTrim t)))).length
      = ((splitComma kl).map (fun t => parseIntJs (jsTrim t))).length := by
    simp
  refine ⟨?_, ?_, ?_, ?_⟩
  · intro hlen
    simp only [stage2Res]
    rw [if_pos hlen]
  · intro j r hlen hj hf hall
    simp only [stage2Res]
    rw [if_neg (fun hk => hk hlen)]
    have herr : zipSizes i 0 ((splitComma sl).map jsTrim)
        ((splitComma kl).zip ((splitComma kl).map (fun t => parseIntJs (jsTrim t)))) =
        Except.error r := by
      apply zipSizes_fail_first i j _ _ 0 r hj (by omega)
      · simpa using hf
      · intro j' hj'
        simpa using hall j' hj'
    rw [herr]
  · intro hlen hall
    obtain ⟨arr, harr⟩ := zipSizes_ok_all_good i ((splitComma sl).map jsTrim)
      ((splitComma kl).zip ((splitComma kl).map (fun t => parseIntJs (jsTrim t)))) 0
      (fun j hj1 hj2 => by simpa using hall j hj1)
    refine ⟨arr, ?_⟩
    simp only [stage2Res]
    rw [if_neg (fun hk => hk hlen), harr]
  · intro cmap mmap pmap svc st row r hrej
    have h := processRow_reject cmap mmap pmap svc st i row r hrej
    rw [h]
    exact ⟨rfl, rfl⟩

/-- C8 witness: the spec's two examples — `Sizes="S,M,L"`, `Stocks="1,2"`
is rejected for the 3-vs-2 mismatch, and `Sizes="S,M"`, `Stocks="1,-2"` is
rejected for the negative stock at position 2. -/
theorem c8_parallel_columns_witness :
    stage2Res 2 "S,M,L" "1,2" = SizeOutcome.rejectRow (Reason.sizesStocksMismatch 2 3 2) ∧
    stage2Res 2 "S,M" "1,-2" = SizeOutcome.rejectRow (Reason.stockNegative 2 "M" (-2)) := by
  constructor
  · exact (c8_parallel_columns 2 "S,M,L" "1,2").1 (by decide)
  · refine (c8_parallel_columns 2 "S,M" "1,-2").2.1 1 (Reason.stockNegative 2 "M" (-2))
      (by decide) (by decide) (by decide) ?_
    intro j' hj'
    interval_cases j'
    decide

/-! ### C9: the no-size-data fallback -/

/-- The payload an otherwise valid row with no size data validates to: an
empty serialized size list. -/
def fallbackPd (cid mid : String) (price : DecNum) (row : Row) : ProductFormData :=
  { title := cellStr row.Title, code := cellStr row.Code, price := price,
    categoryId := cid, manufacturerId := mid, sizes := "[]",
    image := cellStr row.ImageURL, isVisible := parseVisible row.IsVisible }

/-- The aggregate-stock chain of strategy 3 (lines 370-373): `TotalStock`
first, else `Stock`; the inner `Option` is `parseInt`'s NaN. -/
def totalStockFromRow (row : Row) : Option (Option Int) :=
  match row.TotalStock with
  | some v => some (parseIntJs (jsToString v))
  | none =>
    match row.Stock with
    | some v => some (parseIntJs (jsToString v))
    | none => none

/-- Strategy 3 lands in the warning fallback whenever no nonnegative
aggregate parses: both cells absent, an unparsable (NaN) value, or a
negative one. -/
theorem stage3Res_fallback (i : Nat) (row : Row)
    (hagg : ∀ n : Int, totalStockFromRow row = some (some n) → n < 0) :
    stage3Res i row = SizeOutcome.okSizes (some (Reason.noSizeData i)) "[]" := by
  have hdef : stage3Res i row = (match totalStockFromRow row with
      | some (some n) =>
        if 0 ≤ n then SizeOutcome.okSizes none (stringifySizes [⟨"One Size", ⟨n, 0⟩⟩])
        else SizeOutcome.okSizes (some (Reason.noSizeData i)) "[]"
      | some none => SizeOutcome.okSizes (some (Reason.noSizeData i)) "[]"
      | none => SizeOutcome.okSizes (some (Reason.noSizeData i)) "[]") := rfl
  rw [hdef]
  cases hts : totalStockFromRow row with
  | none => rfl
  | some o =>
    cases o with
    | none => rfl
    | some n =>
      have hn := hagg n hts
      show (if 0 ≤ n then SizeOutcome.okSizes none (stringifySizes [⟨"One Size", ⟨n, 0⟩⟩])
        else SizeOutcome.okSizes (some (Reason.noSizeData i)) "[]") =
        SizeOutcome.okSizes (some (Reason.noSizeData i)) "[]"
      rw [if_neg (by omega)]

/-- Strategy selection falls through to strategy 3 when the trimmed
structured payload is empty (absent, falsy or whitespace) and the trimmed
Sizes/Stocks pair is incomplete (either side absent, falsy or
whitespace). -/
theorem sizesStage_fallthrough (i : Nat) (row : Row)
    (hssj : (if truthyOpt row.SizesStockJSON then jsTrim (cellStr row.SizesStockJSON) else "") = "")
    (hpair : (if truthyOpt row.Sizes then jsTrim (cellStr row.Sizes) else "") = "" ∨
      (if truthyOpt row.Stocks then jsTrim (cellStr row.Stocks) else "") = "") :
    sizesStage i row = stage3Res i row := by
  have hdef : sizesStage i row =
      (if (if truthyOpt row.SizesStockJSON then jsTrim (cellStr row.SizesStockJSON) else "") ≠ ""
        then stage1Res i
          (if truthyOpt row.SizesStockJSON then jsTrim (cellStr row.SizesStockJSON) else "")
        else if (if truthyOpt row.Sizes then jsTrim (cellStr row.Sizes) else "") ≠ "" &&
            (if truthyOpt row.Stocks then jsTrim (cellStr row.Stocks) else "") ≠ "" then
          stage2Res i (if truthyOpt row.Sizes then jsTrim (cellStr row.Sizes) else "")
            (if truthyOpt row.Stocks then jsTrim (cellStr row.Stocks) else "")
        else stage3Res i row) := rfl
  rw [hdef, if_neg (by simp [hssj])]
  rcases hpair with h2 | h2
  · rw [if_neg (by simp [h2])]
  · rw [if_neg (by simp [h2])]

/-- C9: an otherwise valid row in which none of the three size strategies
yields data — empty trimmed structured payload, incomplete Sizes/Stocks
pair, and no valid nonnegative `TotalStock`/`Stock` aggregate (absent,
unparsable, or negative) — is flagged with the non-fatal no-size-data
warning rather than a rejection, gets the empty size list `"[]"`, and
still proceeds to the insert/update mutation, which is issued and
counted. -/
theorem c9_no_size_fallback (cmap mmap : List (String × String)) (pmap : List (String × Product))
    (st : PassState) (i : Nat) (row : Row) (cid mid : String) (price : DecNum)
    (hreq : requiredMissing row = false)
    (hc : resolveRef cmap row.Category = some cid)
    (hm : resolveRef mmap row.Manufacturer = some mid)
    (hp : parseFloatOpt row.Price = some price)
    (hpos : price.isPos = true)
    (hssj : (if truthyOpt row.SizesStockJSON then jsTrim (cellStr row.SizesStockJSON) else "") = "")
    (hpair : (if truthyOpt row.Sizes then jsTrim (cellStr row.Sizes) else "") = "" ∨
      (if truthyOpt row.Stocks then jsTrim (cellStr row.Stocks) else "") = "")
    (hagg : ∀ n : Int, totalStockFromRow row = some (some n) → n < 0) :
    ∃ call,
      rowValidate cmap mmap i row =
        RowCheck.ok (some (Reason.noSizeData i)) (fallbackPd cid mid price row) ∧
      (fallbackPd cid mid price row).sizes = "[]" ∧
      (processRow cmap mmap pmap svcOK st i row).errors = st.errors ++ [Reason.noSizeData i] ∧
      (processRow cmap mmap pmap svcOK st i row).calls = st.calls ++ [call] ∧
      (processRow cmap mmap pmap svcOK st i row).importedCount +
          (processRow cmap mmap pmap svcOK st i row).updatedCount =
        st.importedCount + st.updatedCount + 1 := by
  have hstage : sizesStage i row = SizeOutcome.okSizes (some (Reason.noSizeData i)) "[]" := by
    rw [sizesStage_fallthrough i row hssj hpair, stage3Res_fallback i row hagg]
  have hval : rowValidate cmap mmap i row =
      RowCheck.ok (some (Reason.noSizeData i)) (fallbackPd cid mid price row) := by
    rw [rowValidate, if_neg (by simp [hreq]), hc, hm, hp]
    simp [hpos, hstage, fallbackPd]
  cases hmg : mapGet pmap (jsToLower (fallbackPd cid mid price row).code) with
  | some q =>
    have hpr : processRow cmap mmap pmap svcOK st i row =
        ⟨st.importedCount, st.updatedCount + 1, st.errors ++ [Reason.noSizeData i],
          st.calls ++ [MutationCall.update q.id (fallbackPd cid mid price row)]⟩ := by
      rw [processRow]
      simp only [hval, hmg]
      rfl
    exact ⟨MutationCall.update q.id (fallbackPd cid mid price row), hval, rfl,
      by rw [hpr], by rw [hpr],
      by rw [hpr]
         show st.importedCount + (st.updatedCount + 1) = st.importedCount + st.updatedCount + 1
         omega⟩
  | none =>
    have hpr : processRow cmap mmap pmap svcOK st i row =
        ⟨st.importedCount + 1, st.updatedCount, st.errors ++ [Reason.noSizeData i],
          st.calls ++ [MutationCall.insert (fallbackPd cid mid price row)]⟩ := by
      rw [processRow]
      simp only [hval, hmg]
      rfl
    exact ⟨MutationCall.insert (fallbackPd cid mid price row), hval, rfl,
      by rw [hpr], by rw [hpr],
      by rw [hpr]
         show st.importedCount + 1 + st.updatedCount = st.importedCount + st.updatedCount + 1
         omega⟩

/-- A valid row squarely in the fallback's scope without being all-absent:
`Sizes` present but `Stocks` missing, and a `TotalStock` of "abc" that
parses to NaN. -/
def c9Row : Row :=
  { Title := some (.str "T"), Code := some (.str "X"), Price := some (.num ⟨5, 0⟩),
    Category := some (.str "Shoes"), Manufacturer := some (.str "Nike"),
    ImageURL := some (.str "img"), Sizes := some (.str "S"),
    TotalStock := some (.str "abc") }

/-- C9 witness: the fallback at a concrete row with an unparsable
`TotalStock` and a `Sizes` column lacking its `Stocks` partner, showing
the warning, the empty size list, the issued call and the count. -/
theorem c9_no_size_fallback_witness :
    ∃ call,
      rowValidate [("shoes", "c1")] [("nike", "m1")] 2 c9Row =
        RowCheck.ok (some (Reason.noSizeData 2)) (fallbackPd "c1" "m1" ⟨5, 0⟩ c9Row) ∧
      (fallbackPd "c1" "m1" ⟨5, 0⟩ c9Row).sizes = "[]" ∧
      (processRow [("shoes", "c1")] [("nike", "m1")] [] svcOK PassState.init 2 c9Row).errors =
        PassState.init.errors ++ [Reason.noSizeData 2] ∧
      (processRow [("shoes", "c1")] [("nike", "m1")] [] svcOK PassState.init 2 c9Row).calls =
        PassState.init.calls ++ [call] ∧
      (processRow [("shoes", "c1")] [("nike", "m1")] [] svcOK PassState.init 2 c9Row).importedCount +
          (processRow [("shoes", "c1")] [("nike", "m1")] [] svcOK PassState.init 2 c9Row).updatedCount =
        PassState.init.importedCount + PassState.init.updatedCount + 1 :=
  c9_no_size_fallback [("shoes", "c1")] [("nike", "m1")] [] PassState.init 2 c9Row "c1" "m1"
    ⟨5, 0⟩ (by decide) (by decide) (by decide) (by decide) (by decide) (by decide)
    (Or.inr (by decide))
    (by intro n h
        have h' : (some (none : Option Int) : Option (Option Int)) = some (some n) := h
        injection h' with h''
        exact Option.noConfusion h'')

/-! ### C10: parseInt truncation of stock tokens -/

/-- C10: JS `parseInt(tok, 10)` takes the longest leading digit run — a
token with a fractional part or trailing non-digits is silently truncated
to its leading integer rather than rejected, and only a token with no
leading digit at all parses to `NaN`; hence `Stocks="2.9,3x"` imports with
stocks 2 and 3, while `Stocks="abc"` is rejected as not a number. -/
theorem c10_parseint_truncation (ds rest : List Char)
    (hds : ds ≠ []) (hall : ∀ c ∈ ds, c.isDigit = true)
    (hrest : ∀ c, rest.head? = some c → c.isDigit = false) :
    parseIntJs (String.mk (ds ++ rest)) = some ((charsVal 0 ds : Nat) : Int) ∧
    (∀ s : String, parseIntJs s = none ↔
      ((splitSign (skipWsChars s.data)).2.takeWhile Char.isDigit).isEmpty = true) ∧
    stage2Res 2 "S,M" "2.9,3x" =
      SizeOutcome.okSizes none (stringifySizes [⟨"S", ⟨2, 0⟩⟩, ⟨"M", ⟨3, 0⟩⟩]) ∧
    stage2Res 2 "S" "abc" = SizeOutcome.rejectRow (Reason.stockNotANumber 2 "S" "abc") := by
  obtain ⟨d, ds', rfl⟩ : ∃ d ds', ds = d :: ds' := by
    cases ds with
    | nil => exact absurd rfl hds
    | cons d t => exact ⟨d, t, rfl⟩
  have hd := hall d (by simp)
  have hskip : skipWsChars ((d :: ds') ++ rest) = (d :: ds') ++ rest := by
    simp [skipWsChars, List.dropWhile_cons, isDigit_not_ws hd]
  have hsign : splitSign ((d :: ds') ++ rest) = (false, (d :: ds') ++ rest) := by
    rw [List.cons_append]
    exact splitSign_cons (ds' ++ rest) (isDigit_ne hd).1 (isDigit_ne hd).2.1
  refine ⟨?_, ?_, by decide, by decide⟩
  · have hdata : (String.mk ((d :: ds') ++ rest)).data = (d :: ds') ++ rest := rfl
    simp only [parseIntJs, hdata]
    rw [hskip, hsign]
    rw [show ((false, (d :: ds') ++ rest) : Bool × List Char).2 = (d :: ds') ++ rest from rfl]
    rw [show ((false, (d :: ds') ++ rest) : Bool × List Char).1 = false from rfl]
    rw [takeWhile_append_all rest hall, takeWhile_head_false hrest]
    simp
  · intro s
    simp only [parseIntJs]
    split
    · rename_i hcond
      simp [hcond]
    · rename_i hcond
      simp [hcond]

/-- C10 witness: "2.9" truncates to 2, plus the NaN characterization and
the two concrete row-level outcomes. -/
theorem c10_parseint_truncation_witness :
    parseIntJs (String.mk ['2', '.', '9']) = some 2 ∧
    (∀ s : String, parseIntJs s = none ↔
      ((splitSign (skipWsChars s.data)).2.takeWhile Char.isDigit).isEmpty = true) ∧
    stage2Res 2 "S,M" "2.9,3x" =
      SizeOutcome.okSizes none (stringifySizes [⟨"S", ⟨2, 0⟩⟩, ⟨"M", ⟨3, 0⟩⟩]) ∧
    stage2Res 2 "S" "abc" = SizeOutcome.rejectRow (Reason.stockNotANumber 2 "S" "abc") :=
  c10_parseint_truncation ['2'] ['.', '9'] (by decide) (by decide) (by decide)

end POS
